import Mathlib

/-!
Verification of the reliable message channel of the networkedphysics
protocol library (`ReliableMessageChannel.h`, `DataBlockReceiver.cpp`,
`DNSResolver.cpp`) against its natural-language specification.

The C++ code is shallowly embedded: 16-bit sequence numbers become `Nat`
with explicit `% 65536`, the 15-bit `measuredBits` bitfield becomes `Nat`
with explicit `% 32768`, `double` times become `ℚ`, and the mutable
`SlidingWindow<T>` store becomes a list of optional (sequence, value)
slots.  `SlidingWindow`, `sequence_less_than` and `bits_required` live in
headers that are not part of the three source files; they are modelled
from the specification's contracts (marked `Modelled from the spec:`).
-/

namespace protocol

/-- Modelled from the spec: `sequence_less_than a b` is true iff
`(b - a) mod 2^16` lies in `(0, 2^15)` (16-bit wraparound comparison).
The header defining it is not among the provided sources. -/
def sequence_less_than (a b : ℕ) : Bool :=
  let d := (b % 65536 + 65536 - a % 65536) % 65536
  decide (0 < d) && decide (d < 32768)

/-- Modelled from the spec: `sequence_greater_than a b = sequence_less_than b a`. -/
def sequence_greater_than (a b : ℕ) : Bool :=
  sequence_less_than b a

/-- Helper for `bits_required`: number of bits for `n + 1` values,
`0` when `n = 0`, else `1` more than for `(n + 1) / 2` values (structural
recursion on a fuel argument `≥ n` so that the kernel can evaluate it;
`bitsRequiredAux_eq_clog` identifies it with `ceil(log2(n + 1))`). -/
def bitsRequiredAux : ℕ → ℕ → ℕ
  | _, 0 => 0
  | 0, _ + 1 => 0
  | fuel + 1, n + 1 => bitsRequiredAux fuel ((n + 1) / 2) + 1

/-- Modelled from the spec: `bits_required mn mx` is the number of bits
needed to serialize an integer in `[mn, mx]`, i.e. `ceil(log2(mx - mn + 1))`
(see `bits_required_eq_clog`). -/
def bits_required (mn mx : ℕ) : ℕ :=
  bitsRequiredAux (mx - mn) (mx - mn)

/-- Modelled from the spec: the fixed-capacity `SlidingWindow<T>` store,
keyed by 16-bit sequence number.  Physical slot index for sequence `seq`
is `seq % size`; a slot is either empty (`none`, the `valid = 0` state of
the C++ entry) or holds the stored sequence number and the entry value. -/
structure SlidingWindow (α : Type) where
  slots : List (Option (ℕ × α))
deriving Repr, DecidableEq

namespace SlidingWindow

variable {α : Type}

/-- Capacity `N` of the window. -/
def size (w : SlidingWindow α) : ℕ := w.slots.length

/-- A window of capacity `n` with every slot invalid. -/
def empty (n : ℕ) : SlidingWindow α := ⟨List.replicate n none⟩

/-- Modelled from the spec: `Find(seq)` returns the entry iff the slot at
`seq mod N` is valid and its stored sequence equals `seq`. -/
def find (w : SlidingWindow α) (seq : ℕ) : Option α :=
  match w.slots[seq % w.size]? with
  | some (some (s, v)) => if s = seq then some v else none
  | _ => none

/-- Modelled from the spec: `HasSlotAvailable(seq)` is true iff the slot
is invalid or its occupying sequence `s` satisfies `seq - s ≥ N` modulo 2^16. -/
def hasSlotAvailable (w : SlidingWindow α) (seq : ℕ) : Bool :=
  match w.slots[seq % w.size]? with
  | some (some (s, _)) => decide ((seq % 65536 + 65536 - s % 65536) % 65536 ≥ w.size)
  | _ => true

/-- Modelled from the spec: `Insert(seq, v)` writes the slot and returns
success if `HasSlotAvailable(seq)`, else fails without mutation. -/
def insert (w : SlidingWindow α) (seq : ℕ) (v : α) : SlidingWindow α × Bool :=
  if w.hasSlotAvailable seq then
    (⟨w.slots.set (seq % w.size) (some (seq, v))⟩, true)
  else
    (w, false)

/-- Modelled from the spec: `InsertFast(seq)` unconditionally writes a
fresh entry at slot `seq mod N` (used by the sent-packets tracker). -/
def insertFast (w : SlidingWindow α) (seq : ℕ) (v : α) : SlidingWindow α :=
  ⟨w.slots.set (seq % w.size) (some (seq, v))⟩

/-- In-place mutation of the entry for `seq` through the `Find` pointer
(no-op when `Find` fails). -/
def modify (w : SlidingWindow α) (seq : ℕ) (f : α → α) : SlidingWindow α :=
  match w.find seq with
  | some v => ⟨w.slots.set (seq % w.size) (some (seq, f v))⟩
  | none => w

/-- Invalidation of the entry for `seq` through the `Find` pointer
(`entry->valid = 0`; no-op when `Find` fails). -/
def erase (w : SlidingWindow α) (seq : ℕ) : SlidingWindow α :=
  match w.find seq with
  | some _ => ⟨w.slots.set (seq % w.size) none⟩
  | none => w

end SlidingWindow

/-- A message: opaque polymorphic value with a numeric type id, a mutable
16-bit id (`GetId`/`SetId`), and an opaque self-serialization whose bit
length is `bits` (what `Stream::GetBits()` reports after `Serialize`). -/
structure Message where
  mtype : ℕ
  id : ℕ
  bits : ℕ
deriving Repr, DecidableEq

/-- `ReliableMessageChannelConfig` (float `resendRate` modelled as `ℚ`,
`shared_ptr<Factory<Message>> messageFactory` reduced to its
`GetMaxType()` value, which is all the channel reads from it). -/
structure ReliableMessageChannelConfig where
  resendRate : ℚ
  sendQueueSize : ℕ
  receiveQueueSize : ℕ
  sentPacketsSize : ℕ
  maxMessagesPerPacket : ℕ
  maxMessageSize : ℕ
  maxSmallBlockSize : ℕ
  packetBudget : ℤ
  giveUpBits : ℤ
  maxType : ℕ
deriving Repr, DecidableEq

/-- Default values of the `ReliableMessageChannelConfig` constructor. -/
def defaultConfig : ReliableMessageChannelConfig :=
  { resendRate := 1 / 10
    sendQueueSize := 1024
    receiveQueueSize := 256
    sentPacketsSize := 256
    maxMessagesPerPacket := 32
    maxMessageSize := 64
    maxSmallBlockSize := 64
    packetBudget := 128
    giveUpBits := 64
    maxType := 0 }

/-- `SendQueueEntry`: the `sequence` key and `valid` bit live in the
sliding-window slot; `measuredBits` is a 15-bit bitfield (assignments are
taken mod 2^15 at the write in `SendMessage`). -/
structure SendQueueEntry where
  message : Message
  measuredBits : ℕ
  timeLastSent : ℚ
deriving Repr, DecidableEq

/-- `SentPacketEntry` (key and `valid` bit live in the window slot). -/
structure SentPacketEntry where
  acked : Bool
  timeSent : ℚ
  messageIds : List ℕ
deriving Repr, DecidableEq

/-- `ReceiveQueueEntry` (key and `valid` bit live in the window slot). -/
structure ReceiveQueueEntry where
  message : Message
  timeReceived : ℚ
deriving Repr, DecidableEq

/-- Errors thrown by the channel (`runtime_error` calls in the source). -/
inductive ChannelError where
  | queueOverflow
  | earlyMessage
deriving Repr, DecidableEq

/-- The state of a `ReliableMessageChannel`: the two 16-bit cursors, the
three sliding windows, and the six counters (as separate fields). -/
structure ReliableMessageChannel where
  config : ReliableMessageChannelConfig
  time : ℚ
  sendMessageId : ℕ
  receiveMessageId : ℕ
  sendQueue : SlidingWindow SendQueueEntry
  sentPackets : SlidingWindow SentPacketEntry
  receiveQueue : SlidingWindow ReceiveQueueEntry
  messagesSent : ℕ
  messagesWritten : ℕ
  messagesRead : ℕ
  messagesReceived : ℕ
  messagesDiscardedLate : ℕ
  messagesDiscardedEarly : ℕ
deriving Repr, DecidableEq

namespace ReliableMessageChannel

/-- `m_messageOverheadBits = MessageIdBits + MessageTypeBits`
with `MessageIdBits = 16` and
`MessageTypeBits = bits_required(0, messageFactory->GetMaxType())`. -/
def messageOverheadBits (config : ReliableMessageChannelConfig) : ℕ :=
  16 + bits_required 0 config.maxType

/-- The channel constructor: zero cursors, empty windows, zero counters.
`m_timeBase` is default-constructed (time 0). -/
def init (config : ReliableMessageChannelConfig) : ReliableMessageChannel :=
  { config
    time := 0
    sendMessageId := 0
    receiveMessageId := 0
    sendQueue := SlidingWindow.empty config.sendQueueSize
    sentPackets := SlidingWindow.empty config.sentPacketsSize
    receiveQueue := SlidingWindow.empty config.receiveQueueSize
    messagesSent := 0
    messagesWritten := 0
    messagesRead := 0
    messagesReceived := 0
    messagesDiscardedLate := 0
    messagesDiscardedEarly := 0 }

/-- `CanSendMessage`: the send window has a slot for `m_sendMessageId`. -/
def CanSendMessage (c : ReliableMessageChannel) : Bool :=
  c.sendQueue.hasSlotAvailable c.sendMessageId

/-- `SendMessage`: on overflow throws (error result, no mutation);
otherwise sets the message id, inserts a send-queue entry whose
`timeLastSent` is the sentinel `-1` and whose `measuredBits` is the
measured serialization size plus the per-message overhead (truncated to
the 15-bit bitfield), bumps `MessagesSent`, and increments
`m_sendMessageId` (16-bit wraparound). -/
def SendMessage (c : ReliableMessageChannel) (m : Message) :
    ReliableMessageChannel × Option ChannelError :=
  if c.sendQueue.hasSlotAvailable c.sendMessageId then
    let entry : SendQueueEntry :=
      { message := { m with id := c.sendMessageId }
        measuredBits := (m.bits + messageOverheadBits c.config) % 32768
        timeLastSent := -1 }
    ({ c with
        sendQueue := (c.sendQueue.insert c.sendMessageId entry).1
        messagesSent := c.messagesSent + 1
        sendMessageId := (c.sendMessageId + 1) % 65536 }, none)
  else
    (c, some .queueOverflow)

/-- `ReceiveMessage`: look up `m_receiveMessageId`; if present, invalidate
the slot, bump `MessagesReceived`, advance the cursor (16-bit wraparound)
and return the message, else return null. -/
def ReceiveMessage (c : ReliableMessageChannel) :
    ReliableMessageChannel × Option Message :=
  match c.receiveQueue.find c.receiveMessageId with
  | none => (c, none)
  | some entry =>
    ({ c with
        receiveQueue := c.receiveQueue.erase c.receiveMessageId
        messagesReceived := c.messagesReceived + 1
        receiveMessageId := (c.receiveMessageId + 1) % 65536 }, some entry.message)

/-- `Update`: store the new time base. -/
def Update (c : ReliableMessageChannel) (time : ℚ) : ReliableMessageChannel :=
  { c with time := time }

/-- The first loop of `GetData`: scan the `sendQueueSize` candidate ids
starting at `m_sendMessageId - sendQueueSize` (16-bit wraparound) and
return the id present in the send queue that is minimal under
`sequence_less_than`, if any. -/
def findOldestMessageId (c : ReliableMessageChannel) : Option ℕ :=
  let baseId :=
    (c.sendMessageId % 65536 + 65536 - c.config.sendQueueSize % 65536) % 65536
  (List.range c.config.sendQueueSize).foldl
    (fun acc i =>
      let messageId := (baseId + i) % 65536
      match c.sendQueue.find messageId with
      | some _ =>
        match acc with
        | none => some messageId
        | some oldestMessageId =>
          if sequence_less_than messageId oldestMessageId then some messageId
          else acc
      | none => acc)
    none

/-- The second loop of `GetData`: walk ids `oldest + i` for
`i = 0 .. receiveQueueSize - 1`, giving up when fewer than `giveUpBits`
bits remain; a queue entry is selected when its resend timer has expired
and its `measuredBits` fits in the remaining budget, in which case its
`timeLastSent` is set to the current time and the budget shrinks; the
loop also stops once `maxMessagesPerPacket` ids were selected.
`remaining` is the number of loop iterations left and `i` the current
loop index. -/
def GatherMessages (config : ReliableMessageChannelConfig) (time : ℚ)
    (oldest : ℕ) :
    ℕ → ℕ → SlidingWindow SendQueueEntry → ℤ → List ℕ →
    SlidingWindow SendQueueEntry × ℤ × List ℕ
  | 0, _, q, availableBits, acc => (q, availableBits, acc)
  | remaining + 1, i, q, availableBits, acc =>
    if availableBits < config.giveUpBits then (q, availableBits, acc)
    else
      let messageId := (oldest + i) % 65536
      match q.find messageId with
      | some entry =>
        if entry.timeLastSent + config.resendRate ≤ time ∧
            availableBits - (entry.measuredBits : ℤ) ≥ 0 then
          let q2 := q.modify messageId (fun e => { e with timeLastSent := time })
          let acc2 := acc ++ [messageId]
          let avail2 := availableBits - (entry.measuredBits : ℤ)
          if acc2.length = config.maxMessagesPerPacket then (q2, avail2, acc2)
          else GatherMessages config time oldest remaining (i + 1) q2 avail2 acc2
        else
          if acc.length = config.maxMessagesPerPacket then (q, availableBits, acc)
          else GatherMessages config time oldest remaining (i + 1) q availableBits acc
      | none =>
        if acc.length = config.maxMessagesPerPacket then (q, availableBits, acc)
        else GatherMessages config time oldest remaining (i + 1) q availableBits acc

/-- The send-queue state and the list of selected message ids produced by
the two `GetData` loops (empty selection when the send queue holds no
message at all). -/
def GetDataSelected (c : ReliableMessageChannel) :
    SlidingWindow SendQueueEntry × List ℕ :=
  match findOldestMessageId c with
  | none => (c.sendQueue, [])
  | some oldest =>
    let r := GatherMessages c.config c.time oldest c.config.receiveQueueSize 0
      c.sendQueue (c.config.packetBudget * 8) []
    (r.1, r.2.2)

/-- `GetData(sequence)`: returns null when nothing was selected; otherwise
records a fresh `SentPacketEntry` for `sequence` via `InsertFast`, bumps
`MessagesWritten` by the number of selected ids, and returns the channel
data holding the selected messages (read from the send queue). -/
def GetData (c : ReliableMessageChannel) (sequence : ℕ) :
    ReliableMessageChannel × Option (List Message) :=
  let s := GetDataSelected c
  if s.2 = [] then (c, none)
  else
    let sentPackets := c.sentPackets.insertFast (sequence % 65536)
      { acked := false, timeSent := c.time, messageIds := s.2 }
    let msgs := s.2.filterMap (fun msgId => (s.1.find msgId).map (·.message))
    ({ c with
        sendQueue := s.1
        sentPackets := sentPackets
        messagesWritten := c.messagesWritten + s.2.length }, some msgs)

/-- One iteration of the `ProcessData` message loop, threading the channel
state, the early flag, and the count of receive-queue `Insert` calls that
returned failure (each such failure violates the `assert( result )` in the
source).  `minMessageId` and `maxMessageId` are fixed before the loop. -/
def processDataStep (minMessageId maxMessageId : ℕ)
    (st : ReliableMessageChannel × Bool × ℕ) (m : Message) :
    ReliableMessageChannel × Bool × ℕ :=
  let c := st.1
  let messageId := m.id % 65536
  if sequence_less_than messageId minMessageId then
    ({ c with
        messagesDiscardedLate := c.messagesDiscardedLate + 1
        messagesRead := c.messagesRead + 1 }, st.2.1, st.2.2)
  else if sequence_greater_than messageId maxMessageId then
    ({ c with
        messagesDiscardedEarly := c.messagesDiscardedEarly + 1
        messagesRead := c.messagesRead + 1 }, true, st.2.2)
  else
    let r := c.receiveQueue.insert messageId
      { message := m, timeReceived := c.time }
    ({ c with
        receiveQueue := r.1
        messagesRead := c.messagesRead + 1 }, st.2.1,
      if r.2 then st.2.2 else st.2.2 + 1)

/-- `ProcessData(sequence, data)`: classify each message of the payload
against the receive window `[m_receiveMessageId, m_receiveMessageId +
receiveQueueSize - 1]` (16-bit wraparound), inserting the in-window ones
into the receive queue, then throw `EarlyMessage` after the loop iff some
message was beyond the window.  (`sequence` is unused by the source.)
The third component counts failed receive-queue inserts (assertion
violations in the source); the exception carries no state rollback. -/
def ProcessData (c : ReliableMessageChannel) (_sequence : ℕ)
    (messages : List Message) :
    ReliableMessageChannel × Option ChannelError × ℕ :=
  let minMessageId := c.receiveMessageId % 65536
  let maxMessageId :=
    (c.receiveMessageId % 65536 + c.config.receiveQueueSize + 65535) % 65536
  let r := messages.foldl (processDataStep minMessageId maxMessageId)
    (c, false, 0)
  (r.1, if r.2.1 then some .earlyMessage else none, r.2.2)

/-- `ProcessAck(ack)`: if the sent-packet entry is present and not yet
acked, invalidate the send-queue slot of every message id it recorded
(skipping ids no longer present) and mark the entry acked. -/
def ProcessAck (c : ReliableMessageChannel) (ack : ℕ) :
    ReliableMessageChannel :=
  match c.sentPackets.find (ack % 65536) with
  | none => c
  | some sentPacket =>
    if sentPacket.acked then c
    else
      { c with
          sendQueue := sentPacket.messageIds.foldl
            (fun q messageId =>
              match q.find messageId with
              | some _ => q.erase messageId
              | none => q) c.sendQueue
          sentPackets := c.sentPackets.modify (ack % 65536)
            (fun e => { e with acked := true }) }

end ReliableMessageChannel

/-- One host-side operation on a reliable message channel. -/
inductive ChannelOp where
  | update (time : ℚ)
  | send (m : Message)
  | getData (sequence : ℕ)
  | processData (sequence : ℕ) (messages : List Message)
  | processAck (ack : ℕ)
  | receive
deriving Repr, DecidableEq

namespace ReliableMessageChannel

/-- The state transformer of one operation (outputs discarded). -/
def applyOp (c : ReliableMessageChannel) : ChannelOp → ReliableMessageChannel
  | .update t => c.Update t
  | .send m => (c.SendMessage m).1
  | .getData s => (c.GetData s).1
  | .processData s msgs => (c.ProcessData s msgs).1
  | .processAck a => c.ProcessAck a
  | .receive => c.ReceiveMessage.1

/-- Run a list of operations. -/
def execOps (c : ReliableMessageChannel) : List ChannelOp → ReliableMessageChannel
  | [] => c
  | op :: rest => execOps (c.applyOp op) rest

/-- The messages handed to the application by the successful
`ReceiveMessage` calls of an operation list, in call order. -/
def runDelivered (c : ReliableMessageChannel) : List ChannelOp → List Message
  | [] => []
  | op :: rest =>
    (match op with
      | .receive => c.ReceiveMessage.2.toList
      | _ => []) ++ runDelivered (c.applyOp op) rest

/-- The host supplies a monotonic time base: every `update` carries a time
not smaller than the channel's current one. -/
def timesMonotoneB (c : ReliableMessageChannel) : List ChannelOp → Bool
  | [] => true
  | op :: rest =>
    (match op with
      | .update t => decide (c.time ≤ t)
      | _ => true) && timesMonotoneB (c.applyOp op) rest

/-- No `send` of the operation list happens while the send cursor sits at
`i`, i.e. message id `i` is never handed out afresh during the list. -/
def noFreshSendAtB (i : ℕ) (c : ReliableMessageChannel) : List ChannelOp → Bool
  | [] => true
  | op :: rest =>
    (match op with
      | .send _ => decide (c.sendMessageId ≠ i)
      | _ => true) && noFreshSendAtB i (c.applyOp op) rest

end ReliableMessageChannel

/-- `memcpy( data + start, src, n )` on a byte buffer modelled as a list:
positions `start ≤ j < start + src.length` take `src[j - start]`, the
rest keep their value (writes beyond the buffer length are dropped, as
the buffer has fixed allocation `maxBlockSize`). -/
def writeBytes (data : List ℕ) (start : ℕ) (src : List ℕ) : List ℕ :=
  (List.range data.length).map
    (fun j =>
      if start ≤ j ∧ j < start + src.length then src.getD (j - start) 0
      else data.getD j 0)

/-- State of a `DataBlockReceiver`.  `data` is the `maxBlockSize`-byte
buffer, `receivedFragment` the per-fragment flags, and `acks` records the
`SendAck( fragmentId )` callback invocations in order (the callback is
declared in the header, which is not among the sources; modelled as an
event log). -/
structure DataBlockReceiver where
  fragmentSize : ℕ
  maxBlockSize : ℕ
  maxFragments : ℕ
  data : List ℕ
  receivedFragment : List Bool
  blockSize : ℕ
  numFragments : ℕ
  numReceivedFragments : ℕ
  error : ℕ
  acks : List ℕ
deriving Repr, DecidableEq

namespace DataBlockReceiver

/-- `DATA_BLOCK_RECEIVER_ERROR_BLOCK_TOO_LARGE` (the only error code the
source assigns; its numeric value is immaterial, only `≠ 0` is tested). -/
def errorBlockTooLarge : ℕ := 1

/-- The constructor followed by `Clear()`: fresh buffer, no fragments,
`maxFragments = ceil(maxBlockSize / fragmentSize)`. -/
def create (fragmentSize maxBlockSize : ℕ) : DataBlockReceiver :=
  { fragmentSize
    maxBlockSize
    maxFragments :=
      maxBlockSize / fragmentSize +
        (if maxBlockSize % fragmentSize ≠ 0 then 1 else 0)
    data := List.replicate maxBlockSize 0
    receivedFragment := List.replicate
      (maxBlockSize / fragmentSize +
        (if maxBlockSize % fragmentSize ≠ 0 then 1 else 0)) false
    blockSize := 0
    numFragments := 0
    numReceivedFragments := 0
    error := 0
    acks := [] }

/-- `ProcessFragment`, straight from the source: oversize block sets the
sticky error; the sticky error swallows everything; `blockSize` and
`numFragments` are adopted from the first fragment and later mismatches
are dropped; out-of-range `fragmentId` and fragments overrunning
`blockSize` are dropped; an ack is then sent for every admissible
fragment (duplicates included), and a new fragment is marked, counted and
copied into the buffer. -/
def ProcessFragment (r : DataBlockReceiver) (blockSize numFragments
    fragmentId fragmentBytes : ℕ) (fragmentData : List ℕ) :
    DataBlockReceiver :=
  if blockSize > r.maxBlockSize then { r with error := errorBlockTooLarge }
  else if r.error ≠ 0 then r
  else
    let r1 := if r.blockSize = 0 then { r with blockSize := blockSize } else r
    if r1.blockSize ≠ blockSize then r1
    else if r1.numFragments > r1.maxFragments then r1
    else
      let r2 :=
        if r1.numFragments = 0 then { r1 with numFragments := numFragments }
        else r1
      if r2.numFragments ≠ numFragments then r2
      else if fragmentId ≥ r2.numFragments then r2
      else
        let start := fragmentId * r2.fragmentSize
        let finish := start + fragmentBytes
        if finish > r2.blockSize then r2
        else
          let r3 := { r2 with acks := r2.acks ++ [fragmentId] }
          if r3.receivedFragment.getD fragmentId false then r3
          else
            { r3 with
                receivedFragment := r3.receivedFragment.set fragmentId true
                numReceivedFragments := r3.numReceivedFragments + 1
                data := writeBytes r3.data start
                  (fragmentData.take fragmentBytes) }

/-- Modelled from the spec: `ReceiveCompleted()` is declared in the
header (not among the sources); per the spec `GetBlock` succeeds when all
`num_fragments` fragments are received. -/
def ReceiveCompleted (r : DataBlockReceiver) : Bool :=
  r.numReceivedFragments = r.numFragments

/-- `GetBlock()`: when reception completed and a block was adopted, the
Block view of the first `blockSize` bytes of the buffer; null otherwise. -/
def GetBlock (r : DataBlockReceiver) : Option (List ℕ) :=
  if ReceiveCompleted r ∧ r.blockSize > 0 then some (r.data.take r.blockSize)
  else none

end DataBlockReceiver

/-- `ResolveStatus` of a DNS cache entry. -/
inductive ResolveStatus where
  | inProgress
  | succeeded
  | failed
deriving Repr, DecidableEq

/-- A DNS cache entry: status, result (list of resolved addresses,
`none` when the lookup failed) and the callbacks queued while the lookup
is in flight.  Callbacks are opaque function pointers, modelled as ids;
addresses are modelled as numbers.  (The entry layout is declared in the
header, which is not among the sources.) -/
structure ResolveEntry where
  status : ResolveStatus
  result : Option (List ℕ)
  callbacks : List ℕ
deriving Repr, DecidableEq

/-- A callback invocation `callback( name, result )`, with names modelled
as numbers. -/
structure DNSEvent where
  callback : ℕ
  name : ℕ
  result : Option (List ℕ)
deriving Repr, DecidableEq

/-- `DNSResolver` state: the cache map and the names whose async lookup
is still pending. -/
structure DNSResolver where
  map : List (ℕ × ResolveEntry)
  in_progress : List ℕ
deriving Repr, DecidableEq

namespace DNSResolver

/-- `Resolve(name, callback)`, straight from the source: a cache hit that
is in progress queues the callback; a completed cache hit (succeeded or
failed) invokes the callback immediately, during the `Resolve` call; a
miss creates an in-progress entry holding the callback and schedules the
async lookup.  The returned event list holds the callback invocations
made during the call itself. -/
def Resolve (r : DNSResolver) (name : ℕ) (callback : Option ℕ) :
    DNSResolver × List DNSEvent :=
  match r.map.lookup name with
  | some entry =>
    match entry.status with
    | .inProgress =>
      ({ r with map := (r.map.map
          (fun p => if p.1 = name then
            (name, { entry with callbacks := entry.callbacks ++ callback.toList })
          else p)) }, [])
    | _ =>
      (r, callback.toList.map (fun cb => ⟨cb, name, entry.result⟩))
  | none =>
    ({ map := (r.map ++
        [(name, { status := .inProgress, result := none,
                  callbacks := callback.toList })])
       in_progress := r.in_progress ++ [name] }, [])

/-- `Update(timeBase)`: poll each pending lookup; `ready` is the oracle
for `future.wait_for(0) == ready` together with `future.get()` (`none`:
still running; `some res`: completed with result `res`, where an empty
result models the failed lookup's null pointer as `res = none`).  A
completed entry gets its result and status, its queued callbacks are
invoked, and it leaves `in_progress`. -/
def Update (r : DNSResolver) (ready : ℕ → Option (Option (List ℕ))) :
    DNSResolver × List DNSEvent :=
  let step := fun (acc : List (ℕ × ResolveEntry) × List ℕ × List DNSEvent)
      (name : ℕ) =>
    match acc.1.lookup name, ready name with
    | some entry, some res =>
      (acc.1.map (fun p => if p.1 = name then
          (name, { entry with
            status := if res.isSome then .succeeded else .failed
            result := res })
        else p), acc.2.1,
        acc.2.2 ++ entry.callbacks.map (fun cb => ⟨cb, name, res⟩))
    | _, _ => (acc.1, acc.2.1 ++ [name], acc.2.2)
  let z := r.in_progress.foldl step (r.map, [], [])
  ({ map := z.1, in_progress := z.2.1 }, z.2.2)

end DNSResolver

namespace ReliableMessageChannel

/-- Sum (as `ℤ`) of the `measuredBits` of the send-queue entries for a
list of message ids (0 for ids not in the queue). -/
def sumMeasured (q : SlidingWindow SendQueueEntry) (ids : List ℕ) : ℤ :=
  (ids.map (fun i =>
    match q.find i with
    | some e => (e.measuredBits : ℤ)
    | none => 0)).sum

/-- Receive-queue invariant: every message stored in the receive queue
carries the id it is keyed under.  It holds in every reachable state
(`ProcessData` keys each message by `GetId() mod 2^16`). -/
def RQInv (c : ReliableMessageChannel) : Prop :=
  ∀ s e, c.receiveQueue.find s = some e → e.message.id % 65536 = s

/-- `s` is one of the `n` ids of the receive window starting at `rid`
(16-bit wraparound). -/
def inWindow (rid n s : ℕ) : Prop :=
  ∃ i, i < n ∧ s = (rid + i) % 65536

/-- Well-formedness of the receive queue, as established by the reachable
states of a channel: the window has its configured capacity, every valid
slot stores a key that hashes to it, and every stored key lies in the
current receive window. -/
def ReceiveQueueWF (c : ReliableMessageChannel) : Prop :=
  c.receiveQueue.size = c.config.receiveQueueSize ∧
  ∀ idx k e, c.receiveQueue.slots[idx]? = some (some (k, e)) →
    k % c.config.receiveQueueSize = idx ∧
    inWindow c.receiveMessageId c.config.receiveQueueSize k

/-- Lower bound `t` on the `timeLastSent` of the send-queue entry for id
`i` (vacuous when the entry is gone), together with `t ≤` the channel
clock; the resend-spacing invariant carried along a trace. -/
def SendEntryLB (i : ℕ) (t : ℚ) (c : ReliableMessageChannel) : Prop :=
  t ≤ c.time ∧ ∀ e, c.sendQueue.find i = some e → t ≤ e.timeLastSent

end ReliableMessageChannel

namespace DataBlockReceiver

/-- Number of fragments of a block of `blockSize` bytes cut into
`fragmentSize`-byte fragments (the last one possibly short):
`ceil(blockSize / fragmentSize)`, written as the source computes
`m_maxFragments`. -/
def numFragsFor (blockSize fragmentSize : ℕ) : ℕ :=
  blockSize / fragmentSize + (if blockSize % fragmentSize ≠ 0 then 1 else 0)

/-- Byte count of fragment `k` of a block of `blockSize` bytes. -/
def fragLen (blockSize fragmentSize k : ℕ) : ℕ :=
  min fragmentSize (blockSize - k * fragmentSize)

/-- The bytes of fragment `k` of `block`. -/
def fragSlice (block : List ℕ) (fragmentSize k : ℕ) (n : ℕ) : List ℕ :=
  (block.drop (k * fragmentSize)).take n

/-- Feed the consistent fragments of `block` to the receiver in the order
given by `sched` (a list of fragment ids, duplicates allowed). -/
def processSchedule (r : DataBlockReceiver) (blockSize numFragments
    fragmentSize : ℕ) (block : List ℕ) (sched : List ℕ) :
    DataBlockReceiver :=
  sched.foldl
    (fun r k => r.ProcessFragment blockSize numFragments k
      (fragLen blockSize fragmentSize k)
      (fragSlice block fragmentSize k (fragLen blockSize fragmentSize k)))
    r

/-- Reassembly invariant of a receiver that was fed the consistent
fragments of `block` (size `bs`, fragment size `fs`, `nf` fragments,
allocation `mbs`) for the fragment ids listed in `p`, in order:
configuration intact, no sticky error, one ack per processed fragment,
block metadata adopted once something arrived, the received flags mark
exactly the ids seen so far, `numReceivedFragments` counts the distinct
ids seen, and every byte covered by a seen fragment equals the block
byte. -/
def RecvInv (fs mbs bs nf : ℕ) (block : List ℕ) (p : List ℕ)
    (r : DataBlockReceiver) : Prop :=
  r.fragmentSize = fs ∧
  r.maxBlockSize = mbs ∧
  r.maxFragments = numFragsFor mbs fs ∧
  r.error = 0 ∧
  r.acks = p ∧
  (r.blockSize = if p = [] then 0 else bs) ∧
  (r.numFragments = if p = [] then 0 else nf) ∧
  r.receivedFragment.length = numFragsFor mbs fs ∧
  (∀ k, r.receivedFragment.getD k false = true ↔ k ∈ p) ∧
  r.numReceivedFragments = (Finset.range nf ∩ p.toFinset).card ∧
  r.data.length = mbs ∧
  (∀ j, j < bs → j / fs ∈ p → r.data.getD j 0 = block.getD j 0)

end DataBlockReceiver

/-- A small configuration used to instantiate the theorems on concrete
channels. -/
def testConfig : ReliableMessageChannelConfig :=
  { resendRate := 1
    sendQueueSize := 4
    receiveQueueSize := 4
    sentPacketsSize := 4
    maxMessagesPerPacket := 2
    maxMessageSize := 64
    maxSmallBlockSize := 64
    packetBudget := 16
    giveUpBits := 8
    maxType := 0 }

/-- `testConfig` with a long resend delay (for the sentinel analysis). -/
def slowResendConfig : ReliableMessageChannelConfig :=
  { testConfig with resendRate := 10 }

/-- A small channel with three queued messages (ids 0, 1, 2). -/
def testChannel3 : ReliableMessageChannel :=
  ((((ReliableMessageChannel.init testConfig).SendMessage
      ⟨0, 0, 8⟩).1.SendMessage ⟨0, 0, 8⟩).1.SendMessage ⟨0, 0, 8⟩).1

/-! ## Sliding-window lemmas -/

namespace SlidingWindow

@[simp] theorem size_empty (n : ℕ) : (empty n : SlidingWindow α).size = n := by
  simp [empty, size]

@[simp] theorem find_empty (n : ℕ) (seq : ℕ) :
    (empty n : SlidingWindow α).find seq = none := by
  unfold find
  rcases h : (empty n : SlidingWindow α).slots[seq % (empty n : SlidingWindow α).size]? with _ | e
  · simp
  · rcases e with _ | ⟨s, v⟩
    · simp
    · exfalso
      have := List.getElem?_mem h
      simp [empty] at this

theorem size_insert (w : SlidingWindow α) (seq : ℕ) (v : α) :
    (w.insert seq v).1.size = w.size := by
  unfold insert
  split <;> simp [size]

theorem size_insertFast (w : SlidingWindow α) (seq : ℕ) (v : α) :
    (w.insertFast seq v).size = w.size := by
  simp [insertFast, size]

theorem size_modify (w : SlidingWindow α) (seq : ℕ) (f : α → α) :
    (w.modify seq f).size = w.size := by
  unfold modify
  split <;> simp [size]

theorem size_erase (w : SlidingWindow α) (seq : ℕ) :
    (w.erase seq).size = w.size := by
  unfold erase
  split <;> simp [size]

/-- `find` unfolded to raw slot access, with `size` reduced to `slots.length`. -/
theorem find_eq (w : SlidingWindow α) (j : ℕ) :
    w.find j = match w.slots[j % w.slots.length]? with
      | some (some (s, v)) => if s = j then some v else none
      | _ => none := rfl

/-- `hasSlotAvailable` unfolded to raw slot access. -/
theorem hasSlotAvailable_eq (w : SlidingWindow α) (j : ℕ) :
    w.hasSlotAvailable j = match w.slots[j % w.slots.length]? with
      | some (some (s, _)) =>
          decide ((j % 65536 + 65536 - s % 65536) % 65536 ≥ w.slots.length)
      | _ => true := rfl

theorem find_isSome_size_pos {w : SlidingWindow α} {seq : ℕ} {v : α}
    (h : w.find seq = some v) : 0 < w.size := by
  rcases Nat.eq_zero_or_pos w.size with hz | hp
  · exfalso
    rw [find_eq] at h
    unfold size at hz
    rw [List.eq_nil_of_length_eq_zero hz] at h
    simp at h
  · exact hp

/-- A successful `find` pins the exact slot contents. -/
theorem find_some_slot {w : SlidingWindow α} {seq : ℕ} {v : α}
    (h : w.find seq = some v) :
    w.slots[seq % w.slots.length]? = some (some (seq, v)) := by
  rw [find_eq] at h
  rcases hg : w.slots[seq % w.slots.length]? with _ | e
  · rw [hg] at h; exact absurd h (by simp)
  · rw [hg] at h
    rcases e with _ | ⟨s, u⟩
    · exact absurd h (by simp)
    · simp only [] at h
      by_cases hs : s = seq
      · rw [if_pos hs] at h
        have hu := Option.some.inj h
        rw [hs, hu]
      · rw [if_neg hs] at h
        exact absurd h (by simp)

/-- `find` on a window whose slot array was written at index `seq % length`
with a valid entry keyed `s`. -/
theorem find_set_some {l : List (Option (ℕ × α))} {seq : ℕ}
    (s : ℕ) (v : α) (j : ℕ) (hp : 0 < l.length) :
    (SlidingWindow.mk (l.set (seq % l.length) (some (s, v)))).find j =
      (if j % l.length = seq % l.length then
        (if s = j then some v else none)
      else (SlidingWindow.mk l).find j) := by
  rw [find_eq, find_eq]
  simp only [List.length_set]
  by_cases hslot : j % l.length = seq % l.length
  · rw [if_pos hslot, hslot,
      List.getElem?_set_eq_of_lt _ (Nat.mod_lt _ hp)]
  · rw [if_neg hslot, List.getElem?_set_ne (fun hx => hslot hx.symm)]

/-- `find` on a window whose slot array was invalidated at index `seq % length`. -/
theorem find_set_none {l : List (Option (ℕ × α))} {seq : ℕ}
    (j : ℕ) (hp : 0 < l.length) :
    (SlidingWindow.mk (l.set (seq % l.length) none)).find j =
      (if j % l.length = seq % l.length then none
      else (SlidingWindow.mk l).find j) := by
  rw [find_eq, find_eq]
  simp only [List.length_set]
  by_cases hslot : j % l.length = seq % l.length
  · rw [if_pos hslot, hslot,
      List.getElem?_set_eq_of_lt _ (Nat.mod_lt _ hp)]
  · rw [if_neg hslot, List.getElem?_set_ne (fun hx => hslot hx.symm)]

theorem find_insert_cases {w : SlidingWindow α} {seq j : ℕ} {v e : α}
    (h : (w.insert seq v).1.find j = some e) :
    (j = seq ∧ e = v) ∨ w.find j = some e := by
  unfold insert at h
  by_cases ha : w.hasSlotAvailable seq
  · rw [if_pos ha] at h
    unfold size at h
    rcases Nat.eq_zero_or_pos w.slots.length with hz | hp
    · rw [List.set_eq_of_length_le (by omega)] at h
      exact Or.inr h
    · rw [find_set_some _ _ _ hp] at h
      by_cases hslot : j % w.slots.length = seq % w.slots.length
      · rw [if_pos hslot] at h
        by_cases hs : seq = j
        · rw [if_pos hs] at h
          exact Or.inl ⟨hs.symm, (Option.some.inj h).symm⟩
        · rw [if_neg hs] at h
          exact absurd h (by simp)
      · rw [if_neg hslot] at h
        exact Or.inr h
  · rw [if_neg ha] at h
    exact Or.inr h

theorem find_insert_self {w : SlidingWindow α} {seq : ℕ} (v : α)
    (hp : 0 < w.size) (ha : w.hasSlotAvailable seq = true) :
    (w.insert seq v).1.find seq = some v := by
  unfold insert
  rw [if_pos ha]
  unfold size at hp ⊢
  rw [find_set_some _ _ _ hp]
  simp

theorem insert_not_available {w : SlidingWindow α} {seq : ℕ} (v : α)
    (ha : w.hasSlotAvailable seq = false) :
    w.insert seq v = (w, false) := by
  unfold insert
  rw [ha]
  simp

theorem find_insert_of_slot_ne {w : SlidingWindow α} {seq j : ℕ} (v : α)
    (hslot : j % w.size ≠ seq % w.size) :
    (w.insert seq v).1.find j = w.find j := by
  unfold insert
  by_cases ha : w.hasSlotAvailable seq
  · rw [if_pos ha]
    unfold size at hslot ⊢
    rcases Nat.eq_zero_or_pos w.slots.length with hz | hp
    · rw [List.set_eq_of_length_le (by omega)]
    · rw [find_set_some _ _ _ hp, if_neg hslot]
  · rw [if_neg ha]

theorem find_insertFast_self {w : SlidingWindow α} {seq : ℕ} (v : α)
    (hp : 0 < w.size) :
    (w.insertFast seq v).find seq = some v := by
  unfold insertFast
  unfold size at hp ⊢
  rw [find_set_some _ _ _ hp]
  simp

theorem find_insertFast_cases {w : SlidingWindow α} {seq j : ℕ} {v e : α}
    (h : (w.insertFast seq v).find j = some e) :
    (j = seq ∧ e = v) ∨ w.find j = some e := by
  unfold insertFast at h
  unfold size at h
  rcases Nat.eq_zero_or_pos w.slots.length with hz | hp
  · rw [List.set_eq_of_length_le (by omega)] at h
    exact Or.inr h
  · rw [find_set_some _ _ _ hp] at h
    by_cases hslot : j % w.slots.length = seq % w.slots.length
    · rw [if_pos hslot] at h
      by_cases hs : seq = j
      · rw [if_pos hs] at h
        exact Or.inl ⟨hs.symm, (Option.some.inj h).symm⟩
      · rw [if_neg hs] at h
        exact absurd h (by simp)
    · rw [if_neg hslot] at h
      exact Or.inr h

theorem modify_eq_of_find_none {w : SlidingWindow α} {seq : ℕ} (f : α → α)
    (h : w.find seq = none) : w.modify seq f = w := by
  unfold modify
  rw [h]

theorem modify_eq_of_find_some {w : SlidingWindow α} {seq : ℕ} (f : α → α) {v : α}
    (h : w.find seq = some v) :
    w.modify seq f = ⟨w.slots.set (seq % w.slots.length) (some (seq, f v))⟩ := by
  unfold modify
  rw [h]
  rfl

theorem erase_eq_of_find_none {w : SlidingWindow α} {seq : ℕ}
    (h : w.find seq = none) : w.erase seq = w := by
  unfold erase
  rw [h]

theorem erase_eq_of_find_some {w : SlidingWindow α} {seq : ℕ} {v : α}
    (h : w.find seq = some v) :
    w.erase seq = ⟨w.slots.set (seq % w.slots.length) none⟩ := by
  unfold erase
  rw [h]
  rfl

theorem find_modify_eq (w : SlidingWindow α) (seq : ℕ) (f : α → α) :
    (w.modify seq f).find seq = (w.find seq).map f := by
  rcases hf : w.find seq with _ | v
  · rw [modify_eq_of_find_none f hf, hf]
    rfl
  · have hp : 0 < w.slots.length := find_isSome_size_pos hf
    rw [modify_eq_of_find_some f hf, find_set_some _ _ _ hp]
    simp

theorem find_modify_ne (w : SlidingWindow α) {seq j : ℕ} (f : α → α)
    (hne : j ≠ seq) :
    (w.modify seq f).find j = w.find j := by
  rcases hf : w.find seq with _ | v
  · rw [modify_eq_of_find_none f hf]
  · have hp : 0 < w.slots.length := find_isSome_size_pos hf
    rw [modify_eq_of_find_some f hf, find_set_some _ _ _ hp]
    by_cases hslot : j % w.slots.length = seq % w.slots.length
    · rw [if_pos hslot, if_neg (fun hx => hne hx.symm)]
      rw [find_eq, hslot, find_some_slot hf]
      simp [Ne.symm hne]
    · rw [if_neg hslot]

theorem find_erase_self (w : SlidingWindow α) (seq : ℕ) :
    (w.erase seq).find seq = none := by
  rcases hf : w.find seq with _ | v
  · rw [erase_eq_of_find_none hf, hf]
  · have hp : 0 < w.slots.length := find_isSome_size_pos hf
    rw [erase_eq_of_find_some hf, find_set_none _ hp]
    simp

theorem find_erase_ne (w : SlidingWindow α) {seq j : ℕ}
    (hne : j ≠ seq) :
    (w.erase seq).find j = w.find j := by
  rcases hf : w.find seq with _ | v
  · rw [erase_eq_of_find_none hf]
  · have hp : 0 < w.slots.length := find_isSome_size_pos hf
    rw [erase_eq_of_find_some hf, find_set_none _ hp]
    by_cases hslot : j % w.slots.length = seq % w.slots.length
    · rw [if_pos hslot]
      rw [find_eq, hslot, find_some_slot hf]
      simp [Ne.symm hne]
    · rw [if_neg hslot]

theorem hasSlotAvailable_of_find_some {w : SlidingWindow α} {seq : ℕ} {v : α}
    (h : w.find seq = some v) :
    w.hasSlotAvailable seq = false := by
  have hp : 0 < w.slots.length := find_isSome_size_pos h
  rw [hasSlotAvailable_eq, find_some_slot h]
  rw [decide_eq_false_iff_not]
  intro hge
  omega


end SlidingWindow

/-! ## The bit-count helper computes the ceiling log -/

theorem bitsRequiredAux_eq_clog :
    ∀ fuel n, n ≤ fuel → bitsRequiredAux fuel n = Nat.clog 2 (n + 1) := by
  intro fuel
  induction fuel with
  | zero =>
    intro n hn
    interval_cases n
    rw [bitsRequiredAux, Nat.clog_one_right]
  | succ fuel ih =>
    intro n hn
    cases n with
    | zero => rw [bitsRequiredAux, Nat.clog_one_right]
    | succ m =>
      rw [bitsRequiredAux, ih ((m + 1) / 2) (by omega)]
      conv_rhs => rw [Nat.clog_of_two_le (by omega) (by omega)]
      congr 2
      omega

/-- `bits_required 0 n` is `ceil(log2(n + 1))`, the spec's formula. -/
theorem bits_required_eq_clog (n : ℕ) :
    bits_required 0 n = Nat.clog 2 (n + 1) := by
  unfold bits_required
  rw [Nat.sub_zero, bitsRequiredAux_eq_clog n n le_rfl]

/-! ## Channel frame lemmas -/

namespace ReliableMessageChannel

theorem SendMessage_frame (c : ReliableMessageChannel) (m : Message) :
    (c.SendMessage m).1.receiveQueue = c.receiveQueue ∧
    (c.SendMessage m).1.receiveMessageId = c.receiveMessageId ∧
    (c.SendMessage m).1.time = c.time ∧
    (c.SendMessage m).1.config = c.config := by
  unfold SendMessage
  split <;> exact ⟨rfl, rfl, rfl, rfl⟩

theorem GetData_frame (c : ReliableMessageChannel) (s : ℕ) :
    (c.GetData s).1.receiveQueue = c.receiveQueue ∧
    (c.GetData s).1.receiveMessageId = c.receiveMessageId ∧
    (c.GetData s).1.time = c.time ∧
    (c.GetData s).1.config = c.config ∧
    (c.GetData s).1.sendMessageId = c.sendMessageId := by
  unfold GetData
  dsimp only
  by_cases h : (c.GetDataSelected).2 = []
  · rw [if_pos h]
    exact ⟨rfl, rfl, rfl, rfl, rfl⟩
  · rw [if_neg h]
    exact ⟨rfl, rfl, rfl, rfl, rfl⟩

theorem ProcessAck_frame (c : ReliableMessageChannel) (a : ℕ) :
    (c.ProcessAck a).receiveQueue = c.receiveQueue ∧
    (c.ProcessAck a).receiveMessageId = c.receiveMessageId ∧
    (c.ProcessAck a).time = c.time ∧
    (c.ProcessAck a).config = c.config ∧
    (c.ProcessAck a).sendMessageId = c.sendMessageId := by
  unfold ProcessAck
  rcases h : c.sentPackets.find (a % 65536) with _ | e
  · exact ⟨rfl, rfl, rfl, rfl, rfl⟩
  · dsimp only
    by_cases ha : e.acked = true
    · rw [if_pos ha]
      exact ⟨rfl, rfl, rfl, rfl, rfl⟩
    · rw [if_neg ha]
      exact ⟨rfl, rfl, rfl, rfl, rfl⟩

theorem ReceiveMessage_frame (c : ReliableMessageChannel) :
    c.ReceiveMessage.1.sendQueue = c.sendQueue ∧
    c.ReceiveMessage.1.sentPackets = c.sentPackets ∧
    c.ReceiveMessage.1.time = c.time ∧
    c.ReceiveMessage.1.config = c.config ∧
    c.ReceiveMessage.1.sendMessageId = c.sendMessageId := by
  unfold ReceiveMessage
  rcases h : c.receiveQueue.find c.receiveMessageId with _ | e <;>
    exact ⟨rfl, rfl, rfl, rfl, rfl⟩

theorem processDataStep_frame (a b : ℕ)
    (st : ReliableMessageChannel × Bool × ℕ) (m : Message) :
    (processDataStep a b st m).1.sendQueue = st.1.sendQueue ∧
    (processDataStep a b st m).1.sentPackets = st.1.sentPackets ∧
    (processDataStep a b st m).1.receiveMessageId = st.1.receiveMessageId ∧
    (processDataStep a b st m).1.time = st.1.time ∧
    (processDataStep a b st m).1.config = st.1.config ∧
    (processDataStep a b st m).1.sendMessageId = st.1.sendMessageId := by
  unfold processDataStep
  dsimp only
  by_cases h1 : sequence_less_than (m.id % 65536) a = true
  · rw [if_pos h1]
    exact ⟨rfl, rfl, rfl, rfl, rfl, rfl⟩
  · rw [if_neg h1]
    by_cases h2 : sequence_greater_than (m.id % 65536) b = true
    · rw [if_pos h2]
      exact ⟨rfl, rfl, rfl, rfl, rfl, rfl⟩
    · rw [if_neg h2]
      exact ⟨rfl, rfl, rfl, rfl, rfl, rfl⟩

theorem foldl_processDataStep_frame (a b : ℕ) :
    ∀ (msgs : List Message) (st : ReliableMessageChannel × Bool × ℕ),
    (msgs.foldl (processDataStep a b) st).1.sendQueue = st.1.sendQueue ∧
    (msgs.foldl (processDataStep a b) st).1.sentPackets = st.1.sentPackets ∧
    (msgs.foldl (processDataStep a b) st).1.receiveMessageId
      = st.1.receiveMessageId ∧
    (msgs.foldl (processDataStep a b) st).1.time = st.1.time ∧
    (msgs.foldl (processDataStep a b) st).1.config = st.1.config ∧
    (msgs.foldl (processDataStep a b) st).1.sendMessageId
      = st.1.sendMessageId := by
  intro msgs
  induction msgs with
  | nil => exact fun st => ⟨rfl, rfl, rfl, rfl, rfl, rfl⟩
  | cons m rest ih =>
    intro st
    have h1 := processDataStep_frame a b st m
    have h2 := ih (processDataStep a b st m)
    rw [List.foldl_cons]
    exact ⟨h2.1.trans h1.1, h2.2.1.trans h1.2.1,
      h2.2.2.1.trans h1.2.2.1, h2.2.2.2.1.trans h1.2.2.2.1,
      h2.2.2.2.2.1.trans h1.2.2.2.2.1, h2.2.2.2.2.2.trans h1.2.2.2.2.2⟩

theorem ProcessData_frame (c : ReliableMessageChannel) (s : ℕ)
    (msgs : List Message) :
    (c.ProcessData s msgs).1.sendQueue = c.sendQueue ∧
    (c.ProcessData s msgs).1.sentPackets = c.sentPackets ∧
    (c.ProcessData s msgs).1.receiveMessageId = c.receiveMessageId ∧
    (c.ProcessData s msgs).1.time = c.time ∧
    (c.ProcessData s msgs).1.config = c.config ∧
    (c.ProcessData s msgs).1.sendMessageId = c.sendMessageId := by
  unfold ProcessData
  exact foldl_processDataStep_frame _ _ msgs (c, false, 0)

theorem applyOp_config (c : ReliableMessageChannel) (op : ChannelOp) :
    (c.applyOp op).config = c.config := by
  cases op with
  | update t => rfl
  | send m => exact (SendMessage_frame c m).2.2.2
  | getData s => exact (GetData_frame c s).2.2.2.1
  | processData s msgs => exact (ProcessData_frame c s msgs).2.2.2.2.1
  | processAck a => exact (ProcessAck_frame c a).2.2.2.1
  | receive => exact (ReceiveMessage_frame c).2.2.2.1

theorem execOps_config (ops : List ChannelOp) :
    ∀ c : ReliableMessageChannel, (c.execOps ops).config = c.config := by
  induction ops with
  | nil => exact fun c => rfl
  | cons op rest ih =>
    intro c
    rw [execOps, ih (c.applyOp op), applyOp_config]

end ReliableMessageChannel

/-! ## C5: SendMessage -/

namespace ReliableMessageChannel

/-- C5 (amended): if `CanSendMessage()` holds, `SendMessage(m)` succeeds,
sets `m.id` to `next_send_id`, inserts a send-queue entry keyed by that
id whose `time_last_sent` is the sentinel `-1` and whose `measured_bits`
equals the serialized bit length of `m` plus
`overhead_bits = 16 + ceil(log2(max_type + 1))`, increments
`next_send_id` modulo 2^16 and increments `MessagesSent`; if
`CanSendMessage()` does not hold, `SendMessage` fails with
`QueueOverflow` and leaves the channel state unchanged. -/
theorem sendMessage_spec (c : ReliableMessageChannel) (m : Message)
    (hpos : 0 < c.sendQueue.size)
    (hfit : m.bits + messageOverheadBits c.config < 32768) :
    (CanSendMessage c = true →
      (c.SendMessage m).2 = none ∧
      (c.SendMessage m).1.sendQueue.find c.sendMessageId = some
        { message := { m with id := c.sendMessageId }
          measuredBits := m.bits + (16 + Nat.clog 2 (c.config.maxType + 1))
          timeLastSent := -1 } ∧
      (c.SendMessage m).1.sendMessageId = (c.sendMessageId + 1) % 65536 ∧
      (c.SendMessage m).1.messagesSent = c.messagesSent + 1) ∧
    (CanSendMessage c = false →
      c.SendMessage m = (c, some ChannelError.queueOverflow)) := by
  have hmb : (m.bits + messageOverheadBits c.config) % 32768
      = m.bits + (16 + Nat.clog 2 (c.config.maxType + 1)) := by
    rw [Nat.mod_eq_of_lt hfit]
    unfold messageOverheadBits
    rw [bits_required_eq_clog]
  constructor
  · intro hcan
    unfold CanSendMessage at hcan
    unfold SendMessage
    rw [if_pos hcan]
    dsimp only
    refine ⟨rfl, ?_, rfl, rfl⟩
    have hf := @SlidingWindow.find_insert_self SendQueueEntry c.sendQueue
      c.sendMessageId
      { message := { m with id := c.sendMessageId }
        measuredBits := (m.bits + messageOverheadBits c.config) % 32768
        timeLastSent := -1 } hpos hcan
    rw [hf, hmb]
  · intro hcant
    unfold CanSendMessage at hcant
    unfold SendMessage
    rw [hcant]
    simp

/-- C5 witness: the amended `SendMessage` contract evaluated on a fresh
channel with the small test configuration and an 8-bit message. -/
theorem sendMessage_spec_witness :
    (((init testConfig).SendMessage ⟨0, 0, 8⟩).2 = none ∧
      ((init testConfig).SendMessage ⟨0, 0, 8⟩).1.sendQueue.find 0 = some
        { message := { mtype := 0, id := 0, bits := 8 }
          measuredBits := 8 + (16 + Nat.clog 2 1)
          timeLastSent := -1 } ∧
      ((init testConfig).SendMessage ⟨0, 0, 8⟩).1.sendMessageId
        = (0 + 1) % 65536 ∧
      ((init testConfig).SendMessage ⟨0, 0, 8⟩).1.messagesSent = 0 + 1) :=
  (sendMessage_spec (init testConfig) ⟨0, 0, 8⟩ (by decide) (by decide)).1
    (by decide)

/-- C5 counterexample: the sentinel `time_last_sent` of a fresh entry is
`-1`, not `-∞`: with `resendRate = 10` and the clock at `0`, the freshly
queued message does not pass the resend gate
(`time_last_sent + resendRate ≤ now`), so `GetData` returns null even
though an unacked message is queued — under a `-∞` sentinel it would have
been included. -/
theorem sendMessage_sentinel_counterexample :
    ((((init slowResendConfig).SendMessage ⟨0, 0, 8⟩).1.sendQueue.find 0).map
        SendQueueEntry.timeLastSent = some (-1)) ∧
    ¬((-1 : ℚ) + slowResendConfig.resendRate
        ≤ (init slowResendConfig).time) ∧
    ((((init slowResendConfig).SendMessage ⟨0, 0, 8⟩).1.GetData 0).2
        = none) := by
  refine ⟨?_, ?_, ?_⟩
  · simp [init, slowResendConfig, testConfig, SendMessage, SlidingWindow.find,
      SlidingWindow.insert, SlidingWindow.hasSlotAvailable, SlidingWindow.empty,
      SlidingWindow.size, messageOverheadBits, bits_required, bitsRequiredAux]
  · simp [init, slowResendConfig, testConfig]
  · simp [init, slowResendConfig, testConfig, SendMessage, GetData,
      GetDataSelected, findOldestMessageId, GatherMessages, SlidingWindow.find,
      SlidingWindow.insert, SlidingWindow.hasSlotAvailable, SlidingWindow.empty,
      SlidingWindow.size, messageOverheadBits, bits_required, bitsRequiredAux,
      sequence_less_than, List.range_succ]

/-! ## C6: ProcessAck -/

/-- A step of the `ProcessAck` send-queue loop never resurrects an id:
if `find i` is `none` before, it stays `none`. -/
theorem ackStep_preserves_none (q : SlidingWindow SendQueueEntry)
    (j i : ℕ) (h : q.find i = none) :
    ((match q.find j with
      | some _ => q.erase j
      | none => q) : SlidingWindow SendQueueEntry).find i = none := by
  rcases hf : q.find j with _ | v
  · exact h
  · by_cases hij : i = j
    · subst hij
      exact SlidingWindow.find_erase_self q i
    · rw [SlidingWindow.find_erase_ne q hij]
      exact h

/-- After the `ProcessAck` send-queue loop, an id that started as `none`
is still `none`. -/
theorem ackFold_preserves_none :
    ∀ (ids : List ℕ) (q : SlidingWindow SendQueueEntry) (i : ℕ),
    q.find i = none →
    (ids.foldl (fun q messageId =>
      match q.find messageId with
      | some _ => q.erase messageId
      | none => q) q).find i = none := by
  intro ids
  induction ids with
  | nil => exact fun q i h => h
  | cons j rest ih =>
    intro q i h
    rw [List.foldl_cons]
    exact ih _ i (ackStep_preserves_none q j i h)

/-- After the `ProcessAck` send-queue loop, every processed id is gone. -/
theorem ackFold_erases_mem :
    ∀ (ids : List ℕ) (q : SlidingWindow SendQueueEntry) (i : ℕ),
    i ∈ ids →
    (ids.foldl (fun q messageId =>
      match q.find messageId with
      | some _ => q.erase messageId
      | none => q) q).find i = none := by
  intro ids
  induction ids with
  | nil => intro q i h; exact absurd h (List.not_mem_nil i)
  | cons j rest ih =>
    intro q i h
    rw [List.foldl_cons]
    by_cases hij : i = j
    · subst hij
      have hstep : ((match q.find i with
          | some _ => q.erase i
          | none => q) : SlidingWindow SendQueueEntry).find i = none := by
        rcases hf : q.find i with _ | v
        · exact hf
        · exact SlidingWindow.find_erase_self q i
      exact ackFold_preserves_none rest _ i hstep
    · rcases List.mem_cons.1 h with heq | hmem
      · exact absurd heq hij
      · exact ih _ i hmem

/-- C6: `ProcessAck(p)` on a pending sent-packet entry removes every
message id the packet recorded from the send queue; repeating
`ProcessAck(p)` is a no-op; any further `ProcessAck(p2)` leaves an
already-released id released; and `ProcessAck` of a packet id with no
sent-packet entry (or an already-acked one) changes nothing. -/
theorem processAck_spec (c : ReliableMessageChannel) (p : ℕ)
    (entry : SentPacketEntry)
    (hfind : c.sentPackets.find (p % 65536) = some entry)
    (hnacked : entry.acked = false) :
    (∀ i ∈ entry.messageIds, (c.ProcessAck p).sendQueue.find i = none) ∧
    (c.ProcessAck p).ProcessAck p = c.ProcessAck p ∧
    (∀ p2 i, (c.ProcessAck p).sendQueue.find i = none →
      ((c.ProcessAck p).ProcessAck p2).sendQueue.find i = none) ∧
    (∀ a, c.sentPackets.find (a % 65536) = none → c.ProcessAck a = c) ∧
    (∀ a e, c.sentPackets.find (a % 65536) = some e → e.acked = true →
      c.ProcessAck a = c) := by
  have hbody : c.ProcessAck p = { c with
      sendQueue := entry.messageIds.foldl
        (fun q messageId =>
          match q.find messageId with
          | some _ => q.erase messageId
          | none => q) c.sendQueue
      sentPackets := c.sentPackets.modify (p % 65536)
        (fun e => { e with acked := true }) } := by
    unfold ProcessAck
    rw [hfind]
    dsimp only
    rw [if_neg (by rw [hnacked]; exact Bool.false_ne_true)]
  have hackedAfter : (c.ProcessAck p).sentPackets.find (p % 65536)
      = some { entry with acked := true } := by
    rw [hbody]
    show (c.sentPackets.modify (p % 65536)
      (fun e => { e with acked := true })).find (p % 65536)
      = some { entry with acked := true }
    rw [SlidingWindow.find_modify_eq, hfind]
    rfl
  have hnoop : ∀ (c2 : ReliableMessageChannel) (a : ℕ) (i : ℕ),
      c2.sendQueue.find i = none →
      (c2.ProcessAck a).sendQueue.find i = none := by
    intro c2 a i h
    unfold ProcessAck
    rcases hf : c2.sentPackets.find (a % 65536) with _ | e
    · exact h
    · dsimp only
      by_cases ha : e.acked = true
      · rw [if_pos ha]
        exact h
      · rw [if_neg ha]
        exact ackFold_preserves_none e.messageIds c2.sendQueue i h
  have hackedNoop : ∀ (c2 : ReliableMessageChannel) (a : ℕ)
      (e : SentPacketEntry), c2.sentPackets.find (a % 65536) = some e →
      e.acked = true → c2.ProcessAck a = c2 := by
    intro c2 a e hf ha
    unfold ProcessAck
    rw [hf]
    dsimp only
    rw [if_pos ha]
  refine ⟨?_, ?_, ?_, ?_, ?_⟩
  · intro i hi
    rw [hbody]
    exact ackFold_erases_mem entry.messageIds c.sendQueue i hi
  · exact hackedNoop (c.ProcessAck p) p _ hackedAfter rfl
  · intro p2 i h
    exact hnoop _ p2 i h
  · intro a h
    unfold ProcessAck
    rw [h]
  · intro a e hf ha
    exact hackedNoop c a e hf ha

/-- C6 witness: queue one message, pack it into packet 0, then ack packet
0 — the send queue slot is released, a second ack is a no-op, and acks of
unknown packets change nothing. -/
theorem processAck_spec_witness :
    (((((init testConfig).SendMessage ⟨0, 0, 8⟩).1.GetData 0).1.ProcessAck
        0).sendQueue.find 0 = none) ∧
    (((((init testConfig).SendMessage ⟨0, 0, 8⟩).1.GetData
        0).1.ProcessAck 0).ProcessAck 0
      = ((((init testConfig).SendMessage ⟨0, 0, 8⟩).1.GetData
        0).1.ProcessAck 0)) := by
  have h := processAck_spec
    ((((init testConfig).SendMessage ⟨0, 0, 8⟩).1).GetData 0).1 0
    { acked := false, timeSent := 0, messageIds := [0] }
    (by simp [init, testConfig, SendMessage, GetData, GetDataSelected,
      findOldestMessageId, GatherMessages, SlidingWindow.find,
      SlidingWindow.insert, SlidingWindow.insertFast,
      SlidingWindow.hasSlotAvailable, SlidingWindow.modify,
      SlidingWindow.empty, SlidingWindow.size, messageOverheadBits,
      bits_required, bitsRequiredAux, sequence_less_than, List.range_succ])
    (by decide)
  exact ⟨h.1 0 (by decide), h.2.1⟩

/-! ## C4: duplicate receive and the receive-queue insert -/

/-- C4 (code-bug evidence): re-processing an in-window message whose id is
already valid in the receive queue makes the receive-queue `Insert`
return failure — the slot is occupied by an in-window sequence, so
`HasSlotAvailable` is false — which violates the `assert( result )` in
`ProcessData`.  The insert does not overwrite the slot; without the
assertion, the channel state is unchanged except for the `MessagesRead`
counter, and no error is raised. -/
theorem processData_duplicate_insert_fails :
    ((((init testConfig).ProcessData 0 [⟨0, 0, 8⟩]).1.ProcessData 1
        [⟨0, 0, 8⟩]).2.2 = 1) ∧
    ((((init testConfig).ProcessData 0 [⟨0, 0, 8⟩]).1.ProcessData 1
        [⟨0, 0, 8⟩]).2.1 = none) ∧
    ((((init testConfig).ProcessData 0 [⟨0, 0, 8⟩]).1.ProcessData 1
        [⟨0, 0, 8⟩]).1 =
      { ((init testConfig).ProcessData 0 [⟨0, 0, 8⟩]).1 with
          messagesRead :=
            ((init testConfig).ProcessData 0 [⟨0, 0, 8⟩]).1.messagesRead
              + 1 }) := by
  refine ⟨by decide, by decide, by decide⟩

end ReliableMessageChannel

/-! ## C10: DNS resolver -/

namespace DNSResolver

theorem lookup_append_of_none {β : Type} :
    ∀ (l1 l2 : List (ℕ × β)) (k : ℕ),
    l1.lookup k = none → (l1 ++ l2).lookup k = l2.lookup k := by
  intro l1
  induction l1 with
  | nil => intro l2 k _; rfl
  | cons p rest ih =>
    intro l2 k h
    rcases p with ⟨k1, v1⟩
    rw [List.cons_append]
    rw [List.lookup] at h ⊢
    rcases hb : (k == k1) with _ | _
    · rw [hb] at h
      exact ih l2 k h
    · rw [hb] at h
      exact absurd h (by simp)

/-- Every pending name whose future is not ready is skipped by the
`Update` poll loop: the map and events are untouched, the name stays in
`in_progress`. -/
theorem update_fold_skip (ready : ℕ → Option (Option (List ℕ))) :
    ∀ (names : List ℕ) (m : List (ℕ × ResolveEntry)) (ip : List ℕ)
      (evs : List DNSEvent),
    (∀ n ∈ names, ready n = none) →
    names.foldl (fun acc name =>
      match acc.1.lookup name, ready name with
      | some entry, some res =>
        (acc.1.map (fun p => if p.1 = name then
            (name, { entry with
              status := if res.isSome then ResolveStatus.succeeded
                else ResolveStatus.failed
              result := res })
          else p), acc.2.1,
          acc.2.2 ++ entry.callbacks.map (fun cb => ⟨cb, name, res⟩))
      | _, _ => (acc.1, acc.2.1 ++ [name], acc.2.2)) (m, ip, evs)
      = (m, ip ++ names, evs) := by
  intro names
  induction names with
  | nil => intro m ip evs _; simp
  | cons n rest ih =>
    intro m ip evs h
    rw [List.foldl_cons]
    have hn : ready n = none := h n (List.mem_cons_self n rest)
    have hstep : (match m.lookup n, ready n with
      | some entry, some res =>
        (m.map (fun p => if p.1 = n then
            (n, { entry with
              status := if res.isSome then ResolveStatus.succeeded
                else ResolveStatus.failed
              result := res })
          else p), ip,
          evs ++ entry.callbacks.map (fun cb => ⟨cb, n, res⟩))
      | _, _ => (m, ip ++ [n], evs)) = (m, ip ++ [n], evs) := by
      rcases hl : m.lookup n with _ | entry <;> rw [hn]
    rw [hstep, ih m (ip ++ [n]) evs (fun x hx => h x (List.mem_cons_of_mem n hx))]
    simp

/-- C10 (amended): for a name with no cache entry, or one whose lookup is
still in flight, `Resolve` invokes no callback during the call — it only
queues the callback on the entry — and the callback then fires from a
later `Update` call once the lookup has completed; but for a name whose
cache entry has already completed (succeeded or failed), `Resolve`
invokes the callback synchronously, during the `Resolve` call itself. -/
theorem resolve_contract (r : DNSResolver) (name : ℕ) (cb : Option ℕ)
    (result : Option (List ℕ)) :
    (r.map.lookup name = none →
      (r.Resolve name cb).2 = [] ∧
      (r.Resolve name cb).1.map.lookup name = some
        { status := .inProgress, result := none, callbacks := cb.toList } ∧
      (name ∉ r.in_progress →
        ((r.Resolve name cb).1.Update
            (fun n => if n = name then some result else none)).2 =
          cb.toList.map (fun c => ⟨c, name, result⟩))) ∧
    (∀ e, r.map.lookup name = some e →
      e.status = ResolveStatus.inProgress → (r.Resolve name cb).2 = []) ∧
    (∀ e, r.map.lookup name = some e →
      e.status ≠ ResolveStatus.inProgress →
      (r.Resolve name cb).2 = cb.toList.map (fun c => ⟨c, name, e.result⟩)) := by
  refine ⟨?_, ?_, ?_⟩
  · intro h
    have hlook : ((r.map ++
        [(name,
          ({ status := .inProgress, result := none, callbacks := cb.toList }
            : ResolveEntry))]).lookup name) = some
        { status := .inProgress, result := none, callbacks := cb.toList } := by
      rw [lookup_append_of_none r.map _ name h]
      simp [List.lookup]
    refine ⟨?_, ?_, ?_⟩
    · unfold Resolve
      rw [h]
    · unfold Resolve
      rw [h]
      exact hlook
    · intro hnotin
      unfold Resolve
      rw [h]
      unfold Update
      dsimp only
      rw [List.foldl_append]
      have hskip := update_fold_skip
        (fun n => if n = name then some result else none) r.in_progress
        (r.map ++ [(name,
          ({ status := .inProgress, result := none, callbacks := cb.toList }
            : ResolveEntry))]) [] []
        (fun n hn => if_neg (by
          intro heq
          rw [heq] at hn
          exact hnotin hn))
      rw [hskip]
      rw [List.foldl_cons, List.foldl_nil]
      rw [hlook]
      simp
  · intro e he hst
    unfold Resolve
    rw [he]
    dsimp only
    rw [hst]
  · intro e he hst
    unfold Resolve
    rw [he]
    dsimp only
    rcases hs : e.status with _ | _ | _
    · exact absurd hs hst
    · rfl
    · rfl

/-- C10 witness: on a fresh resolver, `Resolve` of name 3 with callback 9
emits no event, and the next `Update` whose oracle reports name 3 ready
with result `[4]` fires exactly that callback. -/
theorem resolve_contract_witness :
    ((DNSResolver.mk [] []).Resolve 3 (some 9)).2 = [] ∧
    (((DNSResolver.mk [] []).Resolve 3 (some 9)).1.Update
        (fun n => if n = 3 then some (some [4]) else none)).2 =
      [⟨9, 3, some [4]⟩] := by
  have h := (resolve_contract (DNSResolver.mk [] []) 3 (some 9)
    (some [4])).1 rfl
  exact ⟨h.1, (h.2.2 (by decide)).trans (by decide)⟩

/-- C10 counterexample: when the cache already holds a completed entry
for the name, the callback is invoked during the `Resolve` call itself,
refuting "the callback is never invoked during the Resolve call". -/
theorem resolve_synchronous_callback_counterexample :
    ((DNSResolver.mk
        [(0, { status := .succeeded, result := some [7], callbacks := [] })]
        []).Resolve 0 (some 5)).2 = [⟨5, 0, some [7]⟩] ∧
    ((DNSResolver.mk
        [(0, { status := .succeeded, result := some [7], callbacks := [] })]
        []).Resolve 0 (some 5)).2 ≠ [] := by
  refine ⟨by decide, by decide⟩

end DNSResolver

/-! ## The GetData gather loop -/

namespace ReliableMessageChannel

theorem sumMeasured_nil (q : SlidingWindow SendQueueEntry) :
    sumMeasured q [] = 0 := rfl

theorem sumMeasured_cons (q : SlidingWindow SendQueueEntry) (j : ℕ)
    (l : List ℕ) :
    sumMeasured q (j :: l) = (match q.find j with
      | some e => (e.measuredBits : ℤ)
      | none => 0) + sumMeasured q l := by
  unfold sumMeasured
  rw [List.map_cons, List.sum_cons]

/-- Touching `timeLastSent` leaves every `measuredBits` sum unchanged. -/
theorem sumMeasured_touch (q : SlidingWindow SendQueueEntry) (s : ℕ)
    (t : ℚ) (l : List ℕ) :
    sumMeasured (q.modify s (fun e => { e with timeLastSent := t })) l
      = sumMeasured q l := by
  unfold sumMeasured
  congr 1
  apply List.map_congr_left
  intro j _
  by_cases hj : j = s
  · subst hj
    rw [SlidingWindow.find_modify_eq]
    rcases q.find j with _ | e <;> rfl
  · rw [SlidingWindow.find_modify_ne _ _ hj]

/-- The gather loop of `GetData`, characterized: the selected ids extend
the accumulator by some `news`; the remaining budget drops by exactly the
summed `measuredBits` of `news` and stays nonnegative once anything was
selected; every selected id had a queue entry whose resend timer had
expired; and the only queue mutation is stamping `timeLastSent := time`
on the selected entries. -/
theorem gather_spec (config : ReliableMessageChannelConfig) (time : ℚ)
    (oldest : ℕ) :
    ∀ (remaining i : ℕ) (q : SlidingWindow SendQueueEntry)
      (availableBits : ℤ) (acc : List ℕ),
    ∃ news : List ℕ,
      (GatherMessages config time oldest remaining i q availableBits
          acc).2.2 = acc ++ news ∧
      (GatherMessages config time oldest remaining i q availableBits
          acc).2.1 = availableBits - sumMeasured q news ∧
      (news ≠ [] → 0 ≤ (GatherMessages config time oldest remaining i q
          availableBits acc).2.1) ∧
      (∀ j ∈ news, ∃ e, q.find j = some e ∧
        e.timeLastSent + config.resendRate ≤ time) ∧
      (∀ j, (GatherMessages config time oldest remaining i q availableBits
          acc).1.find j
        = if j ∈ news then
            (q.find j).map (fun e => { e with timeLastSent := time })
          else q.find j) := by
  intro remaining
  induction remaining with
  | zero =>
    intro i q availableBits acc
    refine ⟨[], by simp [GatherMessages], ?_, by simp, by simp, ?_⟩
    · rw [sumMeasured_nil]
      simp [GatherMessages]
    · intro j
      simp [GatherMessages]
  | succ remaining ih =>
    intro i q availableBits acc
    by_cases hb : availableBits < config.giveUpBits
    · have heq : GatherMessages config time oldest (remaining + 1) i q
          availableBits acc = (q, availableBits, acc) := by
        rw [GatherMessages, if_pos hb]
      refine ⟨[], by rw [heq]; simp, ?_, by simp, by simp, ?_⟩
      · rw [heq, sumMeasured_nil]
        simp
      · intro j
        rw [heq]
        simp
    · rcases hf : q.find ((oldest + i) % 65536) with _ | entry
      · have heq : GatherMessages config time oldest (remaining + 1) i q
            availableBits acc
            = (if acc.length = config.maxMessagesPerPacket then
                (q, availableBits, acc)
              else GatherMessages config time oldest remaining (i + 1) q
                availableBits acc) := by
          rw [GatherMessages, if_neg hb]
          dsimp only
          rw [hf]
        by_cases hmax : acc.length = config.maxMessagesPerPacket
        · rw [heq, if_pos hmax]
          refine ⟨[], by simp, ?_, by simp, by simp, ?_⟩
          · rw [sumMeasured_nil]
            simp
          · intro j
            simp
        · rw [heq, if_neg hmax]
          exact ih (i + 1) q availableBits acc
      · by_cases hcond : entry.timeLastSent + config.resendRate ≤ time ∧
            availableBits - (entry.measuredBits : ℤ) ≥ 0
        · have heq : GatherMessages config time oldest (remaining + 1) i q
              availableBits acc
              = (if (acc ++ [(oldest + i) % 65536]).length
                    = config.maxMessagesPerPacket then
                  (q.modify ((oldest + i) % 65536)
                      (fun e => { e with timeLastSent := time }),
                    availableBits - (entry.measuredBits : ℤ),
                    acc ++ [(oldest + i) % 65536])
                else GatherMessages config time oldest remaining (i + 1)
                  (q.modify ((oldest + i) % 65536)
                    (fun e => { e with timeLastSent := time }))
                  (availableBits - (entry.measuredBits : ℤ))
                  (acc ++ [(oldest + i) % 65536])) := by
            rw [GatherMessages, if_neg hb]
            dsimp only
            rw [hf]
            dsimp only
            rw [if_pos hcond]
          set mid := (oldest + i) % 65536 with hmid
          set q2 := q.modify mid (fun e => { e with timeLastSent := time })
            with hq2
          have hsum1 : sumMeasured q [mid] = (entry.measuredBits : ℤ) := by
            rw [sumMeasured_cons, hf, sumMeasured_nil, add_zero]
          have hq2find : ∀ j, q2.find j
              = if j = mid then
                  (q.find j).map (fun e => { e with timeLastSent := time })
                else q.find j := by
            intro j
            by_cases hj : j = mid
            · subst hj
              rw [if_pos rfl, hq2, SlidingWindow.find_modify_eq]
            · rw [if_neg hj, hq2, SlidingWindow.find_modify_ne _ _ hj]
          by_cases hmax : (acc ++ [mid]).length = config.maxMessagesPerPacket
          · rw [heq, if_pos hmax]
            refine ⟨[mid], rfl, ?_, fun _ => hcond.2, ?_, ?_⟩
            · rw [hsum1]
            · intro j hj
              rw [List.mem_singleton] at hj
              subst hj
              exact ⟨entry, hf, hcond.1⟩
            · intro j
              rw [hq2find j]
              simp only [List.mem_singleton]
          · rw [heq, if_neg hmax]
            obtain ⟨news2, hids, havail, hpos, hmem, hframe⟩ :=
              ih (i + 1) q2 (availableBits - (entry.measuredBits : ℤ))
                (acc ++ [mid])
            refine ⟨mid :: news2, ?_, ?_, ?_, ?_, ?_⟩
            · rw [hids, List.append_assoc]
              rfl
            · rw [havail, hq2, sumMeasured_touch, sumMeasured_cons, hf]
              ring
            · intro _
              rcases List.eq_nil_or_concat news2 with h2 | _
              · rw [h2] at havail
                rw [havail, sumMeasured_nil]
                have := hcond.2
                omega
              · rcases news2 with _ | ⟨n2, rest2⟩
                · rw [havail, sumMeasured_nil]
                  have := hcond.2
                  omega
                · exact hpos (by simp)
            · intro j hj
              rcases List.mem_cons.1 hj with hj1 | hj2
              · subst hj1
                exact ⟨entry, hf, hcond.1⟩
              · obtain ⟨e2, he2, hcond2⟩ := hmem j hj2
                by_cases hjm : j = mid
                · subst hjm
                  exact ⟨entry, hf, hcond.1⟩
                · rw [hq2find j, if_neg hjm] at he2
                  exact ⟨e2, he2, hcond2⟩
            · intro j
              rw [hframe j, hq2find j]
              by_cases hj2 : j ∈ news2
              · rw [if_pos hj2, if_pos (List.mem_cons_of_mem mid hj2)]
                by_cases hjm : j = mid
                · rw [if_pos hjm, Option.map_map]
                  rfl
                · rw [if_neg hjm]
              · rw [if_neg hj2]
                by_cases hjm : j = mid
                · rw [if_pos hjm,
                    if_pos (by rw [hjm]; exact List.mem_cons_self mid news2)]
                · rw [if_neg hjm, if_neg (by
                    intro hmem2
                    rcases List.mem_cons.1 hmem2 with h1 | h2
                    · exact hjm h1
                    · exact hj2 h2)]
        · have heq : GatherMessages config time oldest (remaining + 1) i q
              availableBits acc
              = (if acc.length = config.maxMessagesPerPacket then
                  (q, availableBits, acc)
                else GatherMessages config time oldest remaining (i + 1) q
                  availableBits acc) := by
            rw [GatherMessages, if_neg hb]
            dsimp only
            rw [hf]
            dsimp only
            rw [if_neg hcond]
          by_cases hmax : acc.length = config.maxMessagesPerPacket
          · rw [heq, if_pos hmax]
            refine ⟨[], by simp, ?_, by simp, by simp, ?_⟩
            · rw [sumMeasured_nil]
              simp
            · intro j
              simp
          · rw [heq, if_neg hmax]
            exact ih (i + 1) q availableBits acc

/-- The gather loop never selects more than `maxMessagesPerPacket` ids
(as long as the accumulator is still below the cap). -/
theorem gather_count (config : ReliableMessageChannelConfig) (time : ℚ)
    (oldest : ℕ) :
    ∀ (remaining i : ℕ) (q : SlidingWindow SendQueueEntry)
      (availableBits : ℤ) (acc : List ℕ),
    acc.length < config.maxMessagesPerPacket →
    (GatherMessages config time oldest remaining i q availableBits
        acc).2.2.length ≤ config.maxMessagesPerPacket := by
  intro remaining
  induction remaining with
  | zero =>
    intro i q availableBits acc hlt
    rw [GatherMessages]
    exact le_of_lt hlt
  | succ remaining ih =>
    intro i q availableBits acc hlt
    by_cases hb : availableBits < config.giveUpBits
    · rw [GatherMessages, if_pos hb]
      exact le_of_lt hlt
    · rw [GatherMessages, if_neg hb]
      dsimp only
      rcases hf : q.find ((oldest + i) % 65536) with _ | entry
      · rw [if_neg (Nat.ne_of_lt hlt)]
        exact ih (i + 1) q availableBits acc hlt
      · dsimp only
        by_cases hcond : entry.timeLastSent + config.resendRate ≤ time ∧
            availableBits - (entry.measuredBits : ℤ) ≥ 0
        · rw [if_pos hcond]
          by_cases hmax : (acc ++ [(oldest + i) % 65536]).length
              = config.maxMessagesPerPacket
          · rw [if_pos hmax]
            exact le_of_eq hmax
          · rw [if_neg hmax]
            apply ih
            rw [List.length_append, List.length_singleton] at hmax ⊢
            omega
        · rw [if_neg hcond, if_neg (Nat.ne_of_lt hlt)]
          exact ih (i + 1) q availableBits acc hlt

end ReliableMessageChannel

/-! ## C2 and C9: GetData budget, batch cap and frame effect -/

namespace ReliableMessageChannel

/-- Unfolding of `GetDataSelected` when the oldest-message scan found a
message. -/
theorem GetDataSelected_eq_of_oldest (c : ReliableMessageChannel)
    (oldest : ℕ) (h : findOldestMessageId c = some oldest) :
    GetDataSelected c
      = ((GatherMessages c.config c.time oldest c.config.receiveQueueSize 0
          c.sendQueue (c.config.packetBudget * 8) []).1,
        (GatherMessages c.config c.time oldest c.config.receiveQueueSize 0
          c.sendQueue (c.config.packetBudget * 8) []).2.2) := by
  unfold GetDataSelected
  rw [h]

/-- When `GetData` returns a payload, its messages are the send-queue
messages of the selected ids, the post state's send queue is the gathered
queue, and a sent-packet entry holding the selected ids was recorded. -/
theorem GetData_eq_of_nonempty (c : ReliableMessageChannel) (s : ℕ)
    (hne : (GetDataSelected c).2 ≠ []) :
    c.GetData s
      = ({ c with
            sendQueue := (GetDataSelected c).1
            sentPackets := c.sentPackets.insertFast (s % 65536)
              { acked := false, timeSent := c.time,
                messageIds := (GetDataSelected c).2 }
            messagesWritten := c.messagesWritten
              + (GetDataSelected c).2.length },
        some ((GetDataSelected c).2.filterMap
          (fun msgId => ((GetDataSelected c).1.find msgId).map
            (fun e => e.message)))) := by
  unfold GetData
  dsimp only
  rw [if_neg hne]

/-- `GetData` returning null leaves the channel unchanged. -/
theorem GetData_eq_of_empty (c : ReliableMessageChannel) (s : ℕ)
    (he : (GetDataSelected c).2 = []) :
    c.GetData s = (c, none) := by
  unfold GetData
  dsimp only
  rw [if_pos he]

/-- C2: whenever `GetData` returns a payload, the summed `measuredBits`
of the selected send-queue entries is at most `packetBudget × 8`, and the
number of returned messages is at most `maxMessagesPerPacket` (the
returned messages are exactly the selected entries' messages, so their
count is bounded by the selected-id count). -/
theorem getData_budget (c : ReliableMessageChannel) (s : ℕ)
    (msgs : List Message)
    (hmax : 1 ≤ c.config.maxMessagesPerPacket)
    (h : (c.GetData s).2 = some msgs) :
    msgs.length ≤ c.config.maxMessagesPerPacket ∧
    sumMeasured c.sendQueue (GetDataSelected c).2
      ≤ c.config.packetBudget * 8 ∧
    msgs.length ≤ (GetDataSelected c).2.length := by
  by_cases hids : (GetDataSelected c).2 = []
  · rw [GetData_eq_of_empty c s hids] at h
    exact absurd h (by simp)
  · have hmsgs : msgs = (GetDataSelected c).2.filterMap
        (fun msgId => ((GetDataSelected c).1.find msgId).map
          (fun e => e.message)) := by
      rw [GetData_eq_of_nonempty c s hids] at h
      exact (Option.some.inj h).symm
    have hlen : msgs.length ≤ (GetDataSelected c).2.length := by
      rw [hmsgs]
      exact List.length_filterMap_le _ _
    rcases ho : findOldestMessageId c with _ | oldest
    · exfalso
      apply hids
      unfold GetDataSelected
      rw [ho]
    · have hsel := GetDataSelected_eq_of_oldest c oldest ho
      obtain ⟨news, hid2, havail, hpos, _, _⟩ :=
        gather_spec c.config c.time oldest c.config.receiveQueueSize 0
          c.sendQueue (c.config.packetBudget * 8) []
      have hidsne : (GetDataSelected c).2 = news := by
        rw [hsel]
        rw [hid2]
        rfl
      have hnewsne : news ≠ [] := by
        rw [hidsne] at hids
        exact hids
      have hsum : sumMeasured c.sendQueue news ≤ c.config.packetBudget * 8 := by
        have h0 := hpos hnewsne
        rw [havail] at h0
        omega
      have hcount := gather_count c.config c.time oldest
        c.config.receiveQueueSize 0 c.sendQueue (c.config.packetBudget * 8)
        [] (by simpa using hmax)
      refine ⟨?_, ?_, hlen⟩
      · calc msgs.length ≤ (GetDataSelected c).2.length := hlen
          _ ≤ c.config.maxMessagesPerPacket := by
            rw [hsel]
            exact hcount
      · rw [hidsne]
        exact hsum

/-- C2 witness: three queued 24-bit messages under a 2-message cap and a
16-byte budget — `GetData` returns two messages. -/
theorem getData_budget_witness :
    ([(⟨0, 0, 8⟩ : Message), ⟨0, 1, 8⟩].length
        ≤ testConfig.maxMessagesPerPacket) ∧
    (sumMeasured testChannel3.sendQueue (GetDataSelected testChannel3).2
        ≤ testConfig.packetBudget * 8) ∧
    ([(⟨0, 0, 8⟩ : Message), ⟨0, 1, 8⟩].length
        ≤ (GetDataSelected testChannel3).2.length) := by
  have h := getData_budget testChannel3 0 [⟨0, 0, 8⟩, ⟨0, 1, 8⟩]
    (by decide)
    (by simp [testChannel3, init, testConfig, SendMessage, GetData,
      GetDataSelected, findOldestMessageId, GatherMessages, SlidingWindow.find,
      SlidingWindow.insert, SlidingWindow.insertFast, SlidingWindow.modify,
      SlidingWindow.hasSlotAvailable, SlidingWindow.empty, SlidingWindow.size,
      messageOverheadBits, bits_required, bitsRequiredAux, sequence_less_than,
      List.range_succ])
  exact ⟨h.1, h.2.1, h.2.2⟩

/-- C9: when `GetData` returns a payload, the only send-queue mutation is
stamping `timeLastSent := now` on the selected entries: a selected id's
entry keeps its message and `measuredBits` and only its `timeLastSent`
becomes the current time, and entries of unselected ids are untouched.
(The effect is the same whether or not the caller keeps the payload.) -/
theorem getData_frame_effect (c : ReliableMessageChannel) (s : ℕ)
    (msgs : List Message) (h : (c.GetData s).2 = some msgs) :
    (∀ j, (c.GetData s).1.sendQueue.find j
      = if j ∈ (GetDataSelected c).2 then
          (c.sendQueue.find j).map
            (fun e => { e with timeLastSent := c.time })
        else c.sendQueue.find j) ∧
    (∀ j ∈ (GetDataSelected c).2, ∃ e, c.sendQueue.find j = some e ∧
      (c.GetData s).1.sendQueue.find j
        = some { e with timeLastSent := c.time }) := by
  by_cases hids : (GetDataSelected c).2 = []
  · rw [GetData_eq_of_empty c s hids] at h
    exact absurd h (by simp)
  · have hq : (c.GetData s).1.sendQueue = (GetDataSelected c).1 := by
      rw [GetData_eq_of_nonempty c s hids]
    rcases ho : findOldestMessageId c with _ | oldest
    · exfalso
      apply hids
      unfold GetDataSelected
      rw [ho]
    · have hsel := GetDataSelected_eq_of_oldest c oldest ho
      obtain ⟨news, hid2, _, _, hmem, hframe⟩ :=
        gather_spec c.config c.time oldest c.config.receiveQueueSize 0
          c.sendQueue (c.config.packetBudget * 8) []
      have hidsne : (GetDataSelected c).2 = news := by
        rw [hsel, hid2]
        rfl
      have hq1 : (GetDataSelected c).1
          = (GatherMessages c.config c.time oldest c.config.receiveQueueSize
            0 c.sendQueue (c.config.packetBudget * 8) []).1 := by
        rw [hsel]
      constructor
      · intro j
        rw [hq, hq1, hidsne]
        exact hframe j
      · intro j hj
        rw [hidsne] at hj
        obtain ⟨e, he, _⟩ := hmem j hj
        refine ⟨e, he, ?_⟩
        rw [hq, hq1, hframe j, if_pos hj, he]
        rfl

/-- C9 witness: packing the three-message test channel stamps the two
selected entries with the current clock and leaves the third entry
untouched. -/
theorem getData_frame_effect_witness :
    (∀ j, (testChannel3.GetData 0).1.sendQueue.find j
      = if j ∈ (GetDataSelected testChannel3).2 then
          (testChannel3.sendQueue.find j).map
            (fun e => { e with timeLastSent := testChannel3.time })
        else testChannel3.sendQueue.find j) ∧
    (∀ j ∈ (GetDataSelected testChannel3).2, ∃ e,
      testChannel3.sendQueue.find j = some e ∧
      (testChannel3.GetData 0).1.sendQueue.find j
        = some { e with timeLastSent := testChannel3.time }) :=
  getData_frame_effect testChannel3 0 [⟨0, 0, 8⟩, ⟨0, 1, 8⟩]
    (by simp [testChannel3, init, testConfig, SendMessage, GetData,
      GetDataSelected, findOldestMessageId, GatherMessages, SlidingWindow.find,
      SlidingWindow.insert, SlidingWindow.insertFast, SlidingWindow.modify,
      SlidingWindow.hasSlotAvailable, SlidingWindow.empty, SlidingWindow.size,
      messageOverheadBits, bits_required, bitsRequiredAux, sequence_less_than,
      List.range_succ])

end ReliableMessageChannel

/-! ## C3: ProcessData window classification -/

namespace ReliableMessageChannel

/-- A divisor of 2^16 is positive and at most 2^16. -/
theorem pos_le_of_dvd_65536 {N : ℕ} (h : 65536 % N = 0) :
    0 < N ∧ N ≤ 65536 := by
  constructor
  · by_contra hc
    push_neg at hc
    interval_cases N
    simp at h
  · by_contra hc
    push_neg at hc
    rw [Nat.mod_eq_of_lt (by omega)] at h
    omega

/-- Two in-window sequence numbers in the same physical slot are equal
(window width = capacity `N`, and `N` divides 2^16). -/
theorem inWindow_mod_inj {N rid k k2 : ℕ} (hdvd : 65536 % N = 0)
    (h1 : inWindow rid N k) (h2 : inWindow rid N k2)
    (heq : k % N = k2 % N) : k = k2 := by
  obtain ⟨i, hi, rfl⟩ := h1
  obtain ⟨i2, hi2, rfl⟩ := h2
  have hdvd2 : N ∣ 65536 := Nat.dvd_of_mod_eq_zero hdvd
  rw [Nat.mod_mod_of_dvd _ hdvd2, Nat.mod_mod_of_dvd _ hdvd2] at heq
  have h4 : i ≡ i2 [MOD N] := Nat.ModEq.add_left_cancel' rid heq
  have h5 : i % N = i2 % N := h4
  rw [Nat.mod_eq_of_lt hi, Nat.mod_eq_of_lt hi2] at h5
  rw [h5]

/-- A message id that is neither late nor early lies in the receive
window `[rid, rid + N - 1]` (for window width `N ≥ 2`). -/
theorem inWindow_of_gate (N rid k : ℕ) (hN : 1 < N) (hNle : N ≤ 65536)
    (hrid : rid < 65536) (hk : k < 65536)
    (hlate : sequence_less_than k rid = false)
    (hearly : sequence_greater_than k ((rid + N + 65535) % 65536) = false) :
    inWindow rid N k := by
  refine ⟨(k + 65536 - rid) % 65536, ?_, ?_⟩ <;>
  · unfold sequence_greater_than at hearly
    simp only [sequence_less_than, Bool.and_eq_false_iff,
      decide_eq_false_iff_not, not_lt] at hlate hearly
    omega

/-- The receive-queue `Insert` of an in-window id on a well-formed queue:
the id is present afterwards (freshly written, or the slot already held
exactly this id and the failed insert changed nothing), all other ids are
untouched, and well-formedness is preserved. -/
theorem receiveInsert_analysis (q : SlidingWindow ReceiveQueueEntry)
    (N rid k : ℕ) (v : ReceiveQueueEntry)
    (hsize : q.size = N) (hdvd : 65536 % N = 0)
    (hwf : ∀ idx k2 e, q.slots[idx]? = some (some (k2, e)) →
      k2 % N = idx ∧ inWindow rid N k2)
    (hk : inWindow rid N k) :
    ((q.insert k v).1.find k).isSome = true ∧
    (∀ t, t ≠ k → (q.insert k v).1.find t = q.find t) ∧
    (q.insert k v).1.size = N ∧
    (∀ idx k2 e, (q.insert k v).1.slots[idx]? = some (some (k2, e)) →
      k2 % N = idx ∧ inWindow rid N k2) := by
  have hNpos : 0 < N := (pos_le_of_dvd_65536 hdvd).1
  have hlen : q.slots.length = N := hsize
  have hidx : k % q.size < q.slots.length := by
    rw [hsize, hlen]
    exact Nat.mod_lt _ hNpos
  rcases hslot : q.slots[k % q.size]? with _ | val
  · exfalso
    rw [List.getElem?_eq_getElem hidx] at hslot
    exact absurd hslot (by simp)
  rcases val with _ | ⟨k2, e2⟩
  · -- empty slot: the insert succeeds and writes (k, v)
    have hslot2 : q.slots[k % q.slots.length]? = some none := hslot
    have ha : q.hasSlotAvailable k = true := by
      rw [SlidingWindow.hasSlotAvailable_eq, hslot2]
    have hins : (q.insert k v).1
        = ⟨q.slots.set (k % q.slots.length) (some (k, v))⟩ := by
      unfold SlidingWindow.insert
      rw [if_pos ha]
      rfl
    refine ⟨?_, ?_, ?_, ?_⟩
    · rw [SlidingWindow.find_insert_self v (by rw [hsize]; exact hNpos) ha]
      rfl
    · intro t ht
      rw [hins, SlidingWindow.find_set_some _ _ _ (by rw [hlen]; exact hNpos)]
      by_cases hts : t % q.slots.length = k % q.slots.length
      · rw [if_pos hts, if_neg (fun h => ht h.symm)]
        rw [SlidingWindow.find_eq, hts, hslot2]
      · rw [if_neg hts]
    · rw [SlidingWindow.size_insert, hsize]
    · intro idx k2 e2 h
      rw [hins] at h
      dsimp only at h
      by_cases hi : idx = k % q.slots.length
      · subst hi
        rw [List.getElem?_set_eq_of_lt _
          (by rw [hlen]; exact Nat.mod_lt _ hNpos)] at h
        simp only [Option.some.injEq, Prod.mk.injEq] at h
        obtain ⟨hk2, hv⟩ := h
        refine ⟨?_, ?_⟩
        · rw [← hk2, hlen]
        · rw [← hk2]
          exact hk
      · rw [List.getElem?_set_ne (fun h2 => hi h2.symm)] at h
        exact hwf idx k2 e2 h
  · -- occupied slot: well-formedness forces the occupant to be `k` itself
    have hslotN : q.slots[k % N]? = some (some (k2, e2)) := by
      rw [← hsize]
      exact hslot
    have hwf2 := hwf (k % N) k2 e2 hslotN
    have hk2k : k = k2 := (inWindow_mod_inj hdvd hwf2.2 hk hwf2.1).symm
    subst hk2k
    have hslot2 : q.slots[k % q.slots.length]? = some (some (k, e2)) := hslot
    have ha : q.hasSlotAvailable k = false := by
      rw [SlidingWindow.hasSlotAvailable_eq, hslot2]
      rw [decide_eq_false_iff_not]
      intro hge
      rw [hlen] at hge
      omega
    rw [SlidingWindow.insert_not_available v ha]
    refine ⟨?_, fun t _ => rfl, hsize, hwf⟩
    rw [SlidingWindow.find_eq, hslot2]
    simp

/-- The `ProcessData` message loop, characterized over a well-formed
receive queue: counters, the early flag, presence of the in-window
messages, the frame on untouched ids, monotonicity of presence, and
preservation of well-formedness. -/
theorem processData_fold (N rid : ℕ) (hdvd : 65536 % N = 0) (hN : 1 < N)
    (hrid : rid < 65536) :
    ∀ (msgs : List Message) (ch : ReliableMessageChannel) (early : Bool)
      (fails : ℕ),
    ch.receiveQueue.size = N →
    (∀ idx k e, ch.receiveQueue.slots[idx]? = some (some (k, e)) →
      k % N = idx ∧ inWindow rid N k) →
    (msgs.foldl (processDataStep rid ((rid + N + 65535) % 65536))
        (ch, early, fails)).1.messagesRead = ch.messagesRead + msgs.length ∧
    (msgs.foldl (processDataStep rid ((rid + N + 65535) % 65536))
        (ch, early, fails)).1.messagesDiscardedLate
      = ch.messagesDiscardedLate + (msgs.filter
          (fun m => sequence_less_than (m.id % 65536) rid)).length ∧
    (msgs.foldl (processDataStep rid ((rid + N + 65535) % 65536))
        (ch, early, fails)).1.messagesDiscardedEarly
      = ch.messagesDiscardedEarly + (msgs.filter
          (fun m => !sequence_less_than (m.id % 65536) rid &&
            sequence_greater_than (m.id % 65536)
              ((rid + N + 65535) % 65536))).length ∧
    (msgs.foldl (processDataStep rid ((rid + N + 65535) % 65536))
        (ch, early, fails)).2.1
      = (early || msgs.any
          (fun m => !sequence_less_than (m.id % 65536) rid &&
            sequence_greater_than (m.id % 65536)
              ((rid + N + 65535) % 65536))) ∧
    (∀ m ∈ msgs, sequence_less_than (m.id % 65536) rid = false →
      sequence_greater_than (m.id % 65536) ((rid + N + 65535) % 65536)
        = false →
      (((msgs.foldl (processDataStep rid ((rid + N + 65535) % 65536))
        (ch, early, fails)).1.receiveQueue.find (m.id % 65536)).isSome
        = true)) ∧
    (∀ t, (∀ m ∈ msgs, sequence_less_than (m.id % 65536) rid = true ∨
        sequence_greater_than (m.id % 65536) ((rid + N + 65535) % 65536)
          = true ∨ m.id % 65536 ≠ t) →
      (msgs.foldl (processDataStep rid ((rid + N + 65535) % 65536))
        (ch, early, fails)).1.receiveQueue.find t
        = ch.receiveQueue.find t) ∧
    (∀ t, (ch.receiveQueue.find t).isSome = true →
      ((msgs.foldl (processDataStep rid ((rid + N + 65535) % 65536))
        (ch, early, fails)).1.receiveQueue.find t).isSome = true) ∧
    (msgs.foldl (processDataStep rid ((rid + N + 65535) % 65536))
        (ch, early, fails)).1.receiveQueue.size = N ∧
    (∀ idx k e, (msgs.foldl (processDataStep rid ((rid + N + 65535) % 65536))
        (ch, early, fails)).1.receiveQueue.slots[idx]?
        = some (some (k, e)) → k % N = idx ∧ inWindow rid N k) := by
  intro msgs
  induction msgs with
  | nil =>
    intro ch early fails hsize hwf
    refine ⟨by simp, by simp, by simp, by simp, by simp, by simp, ?_, hsize, hwf⟩
    intro t h
    exact h
  | cons m rest ih =>
    intro ch early fails hsize hwf
    rw [List.foldl_cons]
    by_cases hl : sequence_less_than (m.id % 65536) rid = true
    · have hstep : processDataStep rid ((rid + N + 65535) % 65536)
          (ch, early, fails) m
          = ({ ch with
              messagesDiscardedLate := ch.messagesDiscardedLate + 1
              messagesRead := ch.messagesRead + 1 }, early, fails) := by
        unfold processDataStep
        dsimp only
        rw [if_pos hl]
      rw [hstep]
      obtain ⟨h1, h2, h3, h4, h5, h6, h7, h8, h9⟩ :=
        ih ({ ch with
              messagesDiscardedLate := ch.messagesDiscardedLate + 1
              messagesRead := ch.messagesRead + 1 }) early fails hsize hwf
      refine ⟨?_, ?_, ?_, ?_, ?_, ?_, ?_, h8, h9⟩
      · rw [h1]
        simp only [List.length_cons]
        omega
      · rw [h2]
        rw [List.filter_cons, if_pos (by simp [hl])]
        simp only [List.length_cons]
        omega
      · rw [h3]
        rw [List.filter_cons, if_neg (by simp [hl])]
      · rw [h4]
        rw [List.any_cons]
        rw [show (!sequence_less_than (m.id % 65536) rid &&
          sequence_greater_than (m.id % 65536) ((rid + N + 65535) % 65536))
          = false by simp [hl]]
        rw [Bool.false_or]
      · intro m2 hm2 hml hme
        rcases List.mem_cons.1 hm2 with he | hr
        · subst he
          exact absurd hl (by rw [hml]; exact Bool.false_ne_true)
        · exact h5 m2 hr hml hme
      · intro t ht
        exact h6 t (fun m2 hm2 => ht m2 (List.mem_cons_of_mem m hm2))
      · intro t ht
        exact h7 t ht
    · rw [Bool.not_eq_true] at hl
      by_cases hg : sequence_greater_than (m.id % 65536)
          ((rid + N + 65535) % 65536) = true
      · have hstep : processDataStep rid ((rid + N + 65535) % 65536)
            (ch, early, fails) m
            = ({ ch with
                messagesDiscardedEarly := ch.messagesDiscardedEarly + 1
                messagesRead := ch.messagesRead + 1 }, true, fails) := by
          unfold processDataStep
          dsimp only
          rw [if_neg (by rw [hl]; exact Bool.false_ne_true), if_pos hg]
        rw [hstep]
        obtain ⟨h1, h2, h3, h4, h5, h6, h7, h8, h9⟩ :=
          ih ({ ch with
                messagesDiscardedEarly := ch.messagesDiscardedEarly + 1
                messagesRead := ch.messagesRead + 1 }) true fails hsize hwf
        refine ⟨?_, ?_, ?_, ?_, ?_, ?_, ?_, h8, h9⟩
        · rw [h1]
          simp only [List.length_cons]
          omega
        · rw [h2]
          rw [List.filter_cons, if_neg (by simp [hl])]
        · rw [h3]
          rw [List.filter_cons, if_pos (by simp [hl, hg])]
          simp only [List.length_cons]
          omega
        · rw [h4]
          rw [List.any_cons]
          rw [show (!sequence_less_than (m.id % 65536) rid &&
            sequence_greater_than (m.id % 65536) ((rid + N + 65535) % 65536))
            = true by simp [hl, hg]]
          simp
        · intro m2 hm2 hml hme
          rcases List.mem_cons.1 hm2 with he | hr
          · subst he
            exact absurd hg (by rw [hme]; exact Bool.false_ne_true)
          · exact h5 m2 hr hml hme
        · intro t ht
          exact h6 t (fun m2 hm2 => ht m2 (List.mem_cons_of_mem m hm2))
        · intro t ht
          exact h7 t ht
      · rw [Bool.not_eq_true] at hg
        have hNle := (pos_le_of_dvd_65536 hdvd).2
        have hk : inWindow rid N (m.id % 65536) :=
          inWindow_of_gate N rid (m.id % 65536) hN hNle hrid
            (Nat.mod_lt _ (by omega)) hl hg
        obtain ⟨ha1, ha2, ha3, ha4⟩ := receiveInsert_analysis
          ch.receiveQueue N rid (m.id % 65536)
          { message := m, timeReceived := ch.time } hsize hdvd hwf hk
        have hstep : processDataStep rid ((rid + N + 65535) % 65536)
            (ch, early, fails) m
            = ({ ch with
                receiveQueue := (ch.receiveQueue.insert (m.id % 65536)
                  { message := m, timeReceived := ch.time }).1
                messagesRead := ch.messagesRead + 1 }, early,
              if (ch.receiveQueue.insert (m.id % 65536)
                  { message := m, timeReceived := ch.time }).2 then fails
                else fails + 1) := by
          unfold processDataStep
          dsimp only
          rw [if_neg (by rw [hl]; exact Bool.false_ne_true),
            if_neg (by rw [hg]; exact Bool.false_ne_true)]
        rw [hstep]
        obtain ⟨h1, h2, h3, h4, h5, h6, h7, h8, h9⟩ :=
          ih ({ ch with
              receiveQueue := (ch.receiveQueue.insert (m.id % 65536)
                { message := m, timeReceived := ch.time }).1
              messagesRead := ch.messagesRead + 1 }) early
            (if (ch.receiveQueue.insert (m.id % 65536)
                { message := m, timeReceived := ch.time }).2 then fails
              else fails + 1) ha3 ha4
        refine ⟨?_, ?_, ?_, ?_, ?_, ?_, ?_, h8, h9⟩
        · rw [h1]
          simp only [List.length_cons]
          omega
        · rw [h2]
          rw [List.filter_cons, if_neg (by simp [hl])]
        · rw [h3]
          rw [List.filter_cons, if_neg (by simp [hl, hg])]
        · rw [h4]
          rw [List.any_cons]
          rw [show (!sequence_less_than (m.id % 65536) rid &&
            sequence_greater_than (m.id % 65536) ((rid + N + 65535) % 65536))
            = false by simp [hl, hg]]
          rw [Bool.false_or]
        · intro m2 hm2 hml hme
          rcases List.mem_cons.1 hm2 with he | hr
          · subst he
            exact h7 (m2.id % 65536) ha1
          · exact h5 m2 hr hml hme
        · intro t ht
          have hm := ht m (List.mem_cons_self m rest)
          rcases hm with hm1 | hm1 | hm1
          · exact absurd hm1 (by rw [hl]; exact Bool.false_ne_true)
          · exact absurd hm1 (by rw [hg]; exact Bool.false_ne_true)
          · rw [h6 t (fun m2 hm2 => ht m2 (List.mem_cons_of_mem m hm2))]
            exact ha2 t (fun h => hm1 h.symm)
        · intro t ht
          apply h7
          by_cases htk : t = m.id % 65536
          · subst htk
            exact ha1
          · rw [ha2 t htk]
            exact ht

end ReliableMessageChannel

namespace ReliableMessageChannel

/-- C3: `ProcessData` classifies each payload message against the receive
window `[next_receive_id, next_receive_id + receive_queue_size - 1]`
(16-bit wraparound, the late test taking precedence as in the source's
`else if`): late messages bump `MessagesDiscardedLate`, early ones bump
`MessagesDiscardedEarly`, in-window ones end up present in the receive
queue, `MessagesRead` grows once per message, ids not carried by any
in-window message keep their queue slot unchanged, and the call throws
`EarlyMessage` iff at least one message was early — after the whole
payload was processed, so the in-window messages stay inserted. -/
theorem processData_spec (c : ReliableMessageChannel) (s : ℕ)
    (msgs : List Message)
    (hwf : ReceiveQueueWF c)
    (hdvd : 65536 % c.config.receiveQueueSize = 0)
    (hN : 1 < c.config.receiveQueueSize)
    (hrid : c.receiveMessageId < 65536) :
    (c.ProcessData s msgs).1.messagesRead = c.messagesRead + msgs.length ∧
    (c.ProcessData s msgs).1.messagesDiscardedLate = c.messagesDiscardedLate
      + (msgs.filter (fun m => sequence_less_than (m.id % 65536)
          c.receiveMessageId)).length ∧
    (c.ProcessData s msgs).1.messagesDiscardedEarly
      = c.messagesDiscardedEarly
      + (msgs.filter (fun m => !sequence_less_than (m.id % 65536)
            c.receiveMessageId &&
          sequence_greater_than (m.id % 65536)
            ((c.receiveMessageId + c.config.receiveQueueSize + 65535)
              % 65536))).length ∧
    ((c.ProcessData s msgs).2.1 = some ChannelError.earlyMessage ↔
      ∃ m ∈ msgs,
        sequence_less_than (m.id % 65536) c.receiveMessageId = false ∧
        sequence_greater_than (m.id % 65536)
          ((c.receiveMessageId + c.config.receiveQueueSize + 65535) % 65536)
          = true) ∧
    (∀ m ∈ msgs,
      sequence_less_than (m.id % 65536) c.receiveMessageId = false →
      sequence_greater_than (m.id % 65536)
        ((c.receiveMessageId + c.config.receiveQueueSize + 65535) % 65536)
        = false →
      (((c.ProcessData s msgs).1.receiveQueue.find (m.id % 65536)).isSome
        = true)) ∧
    (∀ t, (∀ m ∈ msgs,
        sequence_less_than (m.id % 65536) c.receiveMessageId = true ∨
        sequence_greater_than (m.id % 65536)
          ((c.receiveMessageId + c.config.receiveQueueSize + 65535) % 65536)
          = true ∨ m.id % 65536 ≠ t) →
      (c.ProcessData s msgs).1.receiveQueue.find t
        = c.receiveQueue.find t) := by
  have h1 : (c.ProcessData s msgs).1
      = (msgs.foldl (processDataStep c.receiveMessageId
          ((c.receiveMessageId + c.config.receiveQueueSize + 65535) % 65536))
        (c, false, 0)).1 := by
    unfold ProcessData
    rw [Nat.mod_eq_of_lt hrid]
  have h2 : (c.ProcessData s msgs).2.1
      = (if (msgs.foldl (processDataStep c.receiveMessageId
            ((c.receiveMessageId + c.config.receiveQueueSize + 65535)
              % 65536)) (c, false, 0)).2.1
          then some ChannelError.earlyMessage else none) := by
    unfold ProcessData
    rw [Nat.mod_eq_of_lt hrid]
  obtain ⟨g1, g2, g3, g4, g5, g6, _, _, _⟩ :=
    processData_fold c.config.receiveQueueSize c.receiveMessageId hdvd hN
      hrid msgs c false 0 hwf.1 hwf.2
  refine ⟨by rw [h1]; exact g1, by rw [h1]; exact g2, by rw [h1]; exact g3,
    ?_, ?_, ?_⟩
  · rw [h2, g4, Bool.false_or]
    constructor
    · intro h
      by_cases hany : (msgs.any (fun m =>
          !sequence_less_than (m.id % 65536) c.receiveMessageId &&
          sequence_greater_than (m.id % 65536)
            ((c.receiveMessageId + c.config.receiveQueueSize + 65535)
              % 65536))) = true
      · obtain ⟨m, hm, hpred⟩ := List.any_eq_true.1 hany
        rw [Bool.and_eq_true, Bool.not_eq_true'] at hpred
        exact ⟨m, hm, hpred.1, hpred.2⟩
      · rw [Bool.not_eq_true] at hany
        rw [hany] at h
        exact absurd h (by simp)
    · intro ⟨m, hm, hl, hg⟩
      have hany : (msgs.any (fun m =>
          !sequence_less_than (m.id % 65536) c.receiveMessageId &&
          sequence_greater_than (m.id % 65536)
            ((c.receiveMessageId + c.config.receiveQueueSize + 65535)
              % 65536))) = true :=
        List.any_eq_true.2 ⟨m, hm, (by
          rw [Bool.and_eq_true, Bool.not_eq_true']
          exact ⟨hl, hg⟩)⟩
      rw [hany]
      rfl
  · intro m hm hl hg
    rw [h1]
    exact g5 m hm hl hg
  · intro t ht
    rw [h1]
    exact g6 t ht

/-- C3 witness: a fresh channel (window `[0, 3]`) fed a payload holding
in-window id 0 and early id 10 — the early message is counted and the
call fails with `EarlyMessage`, the in-window message stays inserted. -/
theorem processData_spec_witness :
    (((init testConfig).ProcessData 0
        [⟨0, 0, 8⟩, ⟨0, 10, 8⟩]).1.messagesRead
      = (init testConfig).messagesRead
        + ([(⟨0, 0, 8⟩ : Message), ⟨0, 10, 8⟩]).length) ∧
    (((init testConfig).ProcessData 0
        [⟨0, 0, 8⟩, ⟨0, 10, 8⟩]).1.messagesDiscardedLate
      = (init testConfig).messagesDiscardedLate
        + ([(⟨0, 0, 8⟩ : Message), ⟨0, 10, 8⟩].filter
            (fun m => sequence_less_than (m.id % 65536)
              (init testConfig).receiveMessageId)).length) ∧
    (((init testConfig).ProcessData 0
        [⟨0, 0, 8⟩, ⟨0, 10, 8⟩]).1.messagesDiscardedEarly
      = (init testConfig).messagesDiscardedEarly
        + ([(⟨0, 0, 8⟩ : Message), ⟨0, 10, 8⟩].filter
            (fun m => !sequence_less_than (m.id % 65536)
                (init testConfig).receiveMessageId &&
              sequence_greater_than (m.id % 65536)
                (((init testConfig).receiveMessageId
                  + (init testConfig).config.receiveQueueSize + 65535)
                  % 65536))).length) ∧
    ((((init testConfig).ProcessData 0
        [⟨0, 0, 8⟩, ⟨0, 10, 8⟩]).2.1 = some ChannelError.earlyMessage) ↔
      ∃ m ∈ [(⟨0, 0, 8⟩ : Message), ⟨0, 10, 8⟩],
        sequence_less_than (m.id % 65536)
          (init testConfig).receiveMessageId = false ∧
        sequence_greater_than (m.id % 65536)
          (((init testConfig).receiveMessageId
            + (init testConfig).config.receiveQueueSize + 65535) % 65536)
          = true) ∧
    (∀ m ∈ [(⟨0, 0, 8⟩ : Message), ⟨0, 10, 8⟩],
      sequence_less_than (m.id % 65536)
        (init testConfig).receiveMessageId = false →
      sequence_greater_than (m.id % 65536)
        (((init testConfig).receiveMessageId
          + (init testConfig).config.receiveQueueSize + 65535) % 65536)
        = false →
      ((((init testConfig).ProcessData 0
          [⟨0, 0, 8⟩, ⟨0, 10, 8⟩]).1.receiveQueue.find
            (m.id % 65536)).isSome = true)) ∧
    (∀ t, (∀ m ∈ [(⟨0, 0, 8⟩ : Message), ⟨0, 10, 8⟩],
        sequence_less_than (m.id % 65536)
          (init testConfig).receiveMessageId = true ∨
        sequence_greater_than (m.id % 65536)
          (((init testConfig).receiveMessageId
            + (init testConfig).config.receiveQueueSize + 65535) % 65536)
          = true ∨ m.id % 65536 ≠ t) →
      ((init testConfig).ProcessData 0
        [⟨0, 0, 8⟩, ⟨0, 10, 8⟩]).1.receiveQueue.find t
        = (init testConfig).receiveQueue.find t) :=
  processData_spec (init testConfig) 0 [⟨0, 0, 8⟩, ⟨0, 10, 8⟩]
    (by
      constructor
      · rfl
      · intro idx k e h
        rcases idx with _ | _ | _ | _ | idx <;>
          simp [init, testConfig, SlidingWindow.empty] at h)
    (by decide) (by decide) (by decide)

end ReliableMessageChannel

namespace ReliableMessageChannel

/-- One `ProcessData` loop iteration preserves the receive-queue keying
invariant: inserts are keyed by the message id mod 2^16. -/
theorem RQInv_processDataStep (a b : ℕ)
    (st : ReliableMessageChannel × Bool × ℕ) (m : Message)
    (h : RQInv st.1) : RQInv (processDataStep a b st m).1 := by
  unfold processDataStep
  dsimp only
  by_cases h1 : sequence_less_than (m.id % 65536) a = true
  · rw [if_pos h1]
    intro s e hf
    exact h s e hf
  · rw [if_neg h1]
    by_cases h2 : sequence_greater_than (m.id % 65536) b = true
    · rw [if_pos h2]
      intro s e hf
      exact h s e hf
    · rw [if_neg h2]
      intro s e hf
      rcases SlidingWindow.find_insert_cases hf with ⟨rfl, rfl⟩ | hf2
      · rfl
      · exact h s e hf2

/-- The whole `ProcessData` loop preserves the keying invariant. -/
theorem RQInv_foldl_processDataStep (a b : ℕ) :
    ∀ (msgs : List Message) (st : ReliableMessageChannel × Bool × ℕ),
    RQInv st.1 → RQInv ((msgs.foldl (processDataStep a b) st)).1 := by
  intro msgs
  induction msgs with
  | nil => exact fun st h => h
  | cons m rest ih =>
    intro st h
    rw [List.foldl_cons]
    exact ih _ (RQInv_processDataStep a b st m h)

/-- Every channel operation preserves the receive-queue keying
invariant. -/
theorem RQInv_applyOp (c : ReliableMessageChannel) (op : ChannelOp)
    (h : RQInv c) : RQInv (c.applyOp op) := by
  cases op with
  | update t => exact fun s e hf => h s e hf
  | send m =>
    show RQInv (c.SendMessage m).1
    intro s e hf
    have hq : (c.SendMessage m).1.receiveQueue = c.receiveQueue :=
      (SendMessage_frame c m).1
    rw [hq] at hf
    exact h s e hf
  | getData sq =>
    show RQInv (c.GetData sq).1
    intro s e hf
    have hq : (c.GetData sq).1.receiveQueue = c.receiveQueue :=
      (GetData_frame c sq).1
    rw [hq] at hf
    exact h s e hf
  | processData sq msgs =>
    exact RQInv_foldl_processDataStep (c.receiveMessageId % 65536)
      ((c.receiveMessageId % 65536 + c.config.receiveQueueSize + 65535)
        % 65536) msgs (c, false, 0) h
  | processAck a =>
    show RQInv (c.ProcessAck a)
    intro s e hf
    have hq : (c.ProcessAck a).receiveQueue = c.receiveQueue :=
      (ProcessAck_frame c a).1
    rw [hq] at hf
    exact h s e hf
  | receive =>
    show RQInv c.ReceiveMessage.1
    unfold ReceiveMessage
    rcases hf : c.receiveQueue.find c.receiveMessageId with _ | entry
    · exact h
    · dsimp only
      intro s e hfind
      by_cases hs : s = c.receiveMessageId
      · subst hs
        rw [SlidingWindow.find_erase_self] at hfind
        exact absurd hfind (by simp)
      · rw [SlidingWindow.find_erase_ne _ hs] at hfind
        exact h s e hfind

/-- Every channel operation keeps the receive cursor below 2^16. -/
theorem rid_lt_applyOp (c : ReliableMessageChannel) (op : ChannelOp)
    (h : c.receiveMessageId < 65536) :
    (c.applyOp op).receiveMessageId < 65536 := by
  cases op with
  | update t => exact h
  | send m =>
    show (c.SendMessage m).1.receiveMessageId < 65536
    rw [(SendMessage_frame c m).2.1]
    exact h
  | getData sq =>
    show (c.GetData sq).1.receiveMessageId < 65536
    rw [(GetData_frame c sq).2.1]
    exact h
  | processData sq msgs =>
    show (c.ProcessData sq msgs).1.receiveMessageId < 65536
    rw [(ProcessData_frame c sq msgs).2.2.1]
    exact h
  | processAck a =>
    show (c.ProcessAck a).receiveMessageId < 65536
    rw [(ProcessAck_frame c a).2.1]
    exact h
  | receive =>
    show c.ReceiveMessage.1.receiveMessageId < 65536
    unfold ReceiveMessage
    rcases hf : c.receiveQueue.find c.receiveMessageId with _ | entry
    · exact h
    · exact Nat.mod_lt _ (by omega)

/-- Along any operation list from a state whose receive queue is keyed
correctly, the `k`-th message delivered by the `ReceiveMessage` calls
carries id congruent to `receiveMessageId + k` mod 2^16. -/
theorem runDelivered_ids (ops : List ChannelOp) :
    ∀ (c : ReliableMessageChannel), RQInv c →
    c.receiveMessageId < 65536 →
    ∀ (k : ℕ) (m : Message), (c.runDelivered ops)[k]? = some m →
      m.id % 65536 = (c.receiveMessageId + k) % 65536 := by
  induction ops with
  | nil =>
    intro c _ _ k m hm
    rw [runDelivered] at hm
    exact absurd hm (by simp)
  | cons op rest ih =>
    intro c hinv hrid k m hm
    cases op with
    | update t =>
      have he : c.runDelivered (ChannelOp.update t :: rest)
          = (c.Update t).runDelivered rest := rfl
      rw [he] at hm
      exact ih (c.Update t) hinv hrid k m hm
    | send msg =>
      have he : c.runDelivered (ChannelOp.send msg :: rest)
          = ((c.SendMessage msg).1).runDelivered rest := rfl
      rw [he] at hm
      have h2 := ih (c.SendMessage msg).1
        (RQInv_applyOp c (ChannelOp.send msg) hinv)
        (rid_lt_applyOp c (ChannelOp.send msg) hrid) k m hm
      rw [(SendMessage_frame c msg).2.1] at h2
      exact h2
    | getData sq =>
      have he : c.runDelivered (ChannelOp.getData sq :: rest)
          = ((c.GetData sq).1).runDelivered rest := rfl
      rw [he] at hm
      have h2 := ih (c.GetData sq).1
        (RQInv_applyOp c (ChannelOp.getData sq) hinv)
        (rid_lt_applyOp c (ChannelOp.getData sq) hrid) k m hm
      rw [(GetData_frame c sq).2.1] at h2
      exact h2
    | processData sq msgs =>
      have he : c.runDelivered (ChannelOp.processData sq msgs :: rest)
          = ((c.ProcessData sq msgs).1).runDelivered rest := rfl
      rw [he] at hm
      have h2 := ih (c.ProcessData sq msgs).1
        (RQInv_applyOp c (ChannelOp.processData sq msgs) hinv)
        (rid_lt_applyOp c (ChannelOp.processData sq msgs) hrid) k m hm
      rw [(ProcessData_frame c sq msgs).2.2.1] at h2
      exact h2
    | processAck a =>
      have he : c.runDelivered (ChannelOp.processAck a :: rest)
          = (c.ProcessAck a).runDelivered rest := rfl
      rw [he] at hm
      have h2 := ih (c.ProcessAck a)
        (RQInv_applyOp c (ChannelOp.processAck a) hinv)
        (rid_lt_applyOp c (ChannelOp.processAck a) hrid) k m hm
      rw [(ProcessAck_frame c a).2.1] at h2
      exact h2
    | receive =>
      rw [runDelivered] at hm
      dsimp only [applyOp] at hm
      unfold ReceiveMessage at hm
      rcases hf : c.receiveQueue.find c.receiveMessageId with _ | entry
      · rw [hf] at hm
        exact ih c hinv hrid k m hm
      · rw [hf] at hm
        dsimp only at hm
        rw [Option.toList_some, List.singleton_append] at hm
        cases k with
        | zero =>
          rw [List.getElem?_cons_zero, Option.some.injEq] at hm
          have hid := hinv _ _ hf
          rw [← hm, hid, Nat.add_zero, Nat.mod_eq_of_lt hrid]
        | succ k =>
          rw [List.getElem?_cons_succ] at hm
          have hinv2 : RQInv ({ c with
              receiveQueue := c.receiveQueue.erase c.receiveMessageId
              messagesReceived := c.messagesReceived + 1
              receiveMessageId := (c.receiveMessageId + 1) % 65536 }
                : ReliableMessageChannel) := by
            intro s e hfind
            dsimp only at hfind
            by_cases hs : s = c.receiveMessageId
            · subst hs
              rw [SlidingWindow.find_erase_self] at hfind
              exact absurd hfind (by simp)
            · rw [SlidingWindow.find_erase_ne _ hs] at hfind
              exact hinv s e hfind
          have h2 := ih _ hinv2 (Nat.mod_lt _ (by omega)) k m hm
          rw [h2, Nat.mod_add_mod]
          congr 1
          omega

/-- C1: from the initial state, along every operation list, the messages
handed out by the successful `ReceiveMessage` calls carry consecutive
ids starting at 0 (16-bit wraparound, no gap, no duplicate): the `k`-th
delivered message has id congruent to `k` mod 2^16 — each successful
`ReceiveMessage` returns the message keyed by the current
`m_receiveMessageId` and advances that cursor by one. -/
theorem delivered_in_order (config : ReliableMessageChannelConfig)
    (ops : List ChannelOp) (k : ℕ) (m : Message)
    (hm : (((init config).runDelivered ops))[k]? = some m) :
    m.id % 65536 = k % 65536 := by
  have hinv : RQInv (init config) := by
    intro s e hf
    have hf2 : (SlidingWindow.empty config.receiveQueueSize
        : SlidingWindow ReceiveQueueEntry).find s = some e := hf
    rw [SlidingWindow.find_empty] at hf2
    exact absurd hf2 (by simp)
  have hrid : (init config).receiveMessageId < 65536 := by
    have h0 : (init config).receiveMessageId = 0 := rfl
    rw [h0]
    omega
  have h := runDelivered_ids ops (init config) hinv hrid k m hm
  rw [h]
  have h0 : (init config).receiveMessageId = 0 := rfl
  rw [h0, Nat.zero_add]

/-- C1 witness: deliver message id 0 into a fresh channel and receive it:
the first delivered message carries id 0. -/
theorem delivered_in_order_witness :
    (((init testConfig).runDelivered
      [ChannelOp.processData 0 [⟨0, 0, 8⟩], ChannelOp.receive]))[0]?
      = some (⟨0, 0, 8⟩ : Message) ∧
    (⟨0, 0, 8⟩ : Message).id % 65536 = 0 % 65536 :=
  ⟨by decide, delivered_in_order testConfig
    [ChannelOp.processData 0 [⟨0, 0, 8⟩], ChannelOp.receive] 0 ⟨0, 0, 8⟩
    (by decide)⟩

end ReliableMessageChannel

namespace ReliableMessageChannel

/-- A selected id was eligible: its send-queue entry exists and its
resend timer had expired at the gathering clock. -/
theorem GetDataSelected_eligible (c : ReliableMessageChannel) (i : ℕ)
    (h : i ∈ (GetDataSelected c).2) :
    ∃ e, c.sendQueue.find i = some e ∧
      e.timeLastSent + c.config.resendRate ≤ c.time := by
  rcases ho : findOldestMessageId c with _ | oldest
  · exfalso
    revert h
    unfold GetDataSelected
    rw [ho]
    simp
  · have hsel := GetDataSelected_eq_of_oldest c oldest ho
    obtain ⟨news, hid2, _, _, hmem, _⟩ :=
      gather_spec c.config c.time oldest c.config.receiveQueueSize 0
        c.sendQueue (c.config.packetBudget * 8) []
    have hids2 : (GetDataSelected c).2 = news := by
      rw [hsel, hid2]
      rfl
    rw [hids2] at h
    exact hmem i h

/-- A selected id's entry leaves `GetData` stamped with the current
clock. -/
theorem getData_sel_stamped (c : ReliableMessageChannel) (s i : ℕ)
    (hsel : i ∈ (GetDataSelected c).2) :
    ∀ e, (c.GetData s).1.sendQueue.find i = some e →
      e.timeLastSent = c.time := by
  have hids : (GetDataSelected c).2 ≠ [] := by
    intro h0
    rw [h0] at hsel
    exact absurd hsel (by simp)
  have hq : (c.GetData s).1.sendQueue = (GetDataSelected c).1 := by
    rw [GetData_eq_of_nonempty c s hids]
  rcases ho : findOldestMessageId c with _ | oldest
  · exfalso
    apply hids
    unfold GetDataSelected
    rw [ho]
  · have hsel2 := GetDataSelected_eq_of_oldest c oldest ho
    obtain ⟨news, hid2, _, _, _, hframe⟩ :=
      gather_spec c.config c.time oldest c.config.receiveQueueSize 0
        c.sendQueue (c.config.packetBudget * 8) []
    have hids2 : (GetDataSelected c).2 = news := by
      rw [hsel2, hid2]
      rfl
    have hin : i ∈ news := by
      rw [← hids2]
      exact hsel
    intro e he
    rw [hq, hsel2] at he
    dsimp only at he
    rw [hframe i, if_pos hin] at he
    rcases hfo : c.sendQueue.find i with _ | e0
    · rw [hfo] at he
      exact absurd he (by simp)
    · rw [hfo] at he
      dsimp only [Option.map] at he
      rw [← Option.some.inj he]

/-- After the ack-release fold, any id still found was already present
with the same entry before the fold. -/
theorem ackFold_find_some (ids : List ℕ) :
    ∀ (q : SlidingWindow SendQueueEntry) (i : ℕ) (e : SendQueueEntry),
    ((ids.foldl (fun q messageId =>
        match q.find messageId with
        | some _ => q.erase messageId
        | none => q) q).find i = some e) → q.find i = some e := by
  induction ids with
  | nil => exact fun q i e h => h
  | cons j rest ih =>
    intro q i e h
    rw [List.foldl_cons] at h
    have h2 := ih _ i e h
    rcases hj : q.find j with _ | ej
    · rw [hj] at h2
      exact h2
    · rw [hj] at h2
      dsimp only at h2
      by_cases hij : i = j
      · subst hij
        rw [SlidingWindow.find_erase_self] at h2
        exact absurd h2 (by simp)
      · rw [SlidingWindow.find_erase_ne _ hij] at h2
        exact h2

/-- Every operation preserves the resend lower bound `t` on id `i`,
provided the host clock never goes backwards and id `i` is not handed
out afresh by a `send`. -/
theorem SendEntryLB_applyOp (i : ℕ) (t : ℚ) (c : ReliableMessageChannel)
    (op : ChannelOp) (h : SendEntryLB i t c)
    (hmono : ∀ t2, op = ChannelOp.update t2 → c.time ≤ t2)
    (hfresh : ∀ m, op = ChannelOp.send m → c.sendMessageId ≠ i) :
    SendEntryLB i t (c.applyOp op) := by
  cases op with
  | update t2 =>
    exact ⟨h.1.trans (hmono t2 rfl), fun e he => h.2 e he⟩
  | send m =>
    show SendEntryLB i t (c.SendMessage m).1
    constructor
    · rw [(SendMessage_frame c m).2.2.1]
      exact h.1
    · intro e he
      unfold SendMessage at he
      by_cases ha : c.sendQueue.hasSlotAvailable c.sendMessageId = true
      · rw [if_pos ha] at he
        dsimp only at he
        rcases SlidingWindow.find_insert_cases he with ⟨h1, _⟩ | he2
        · exact absurd h1.symm (hfresh m rfl)
        · exact h.2 e he2
      · rw [if_neg ha] at he
        exact h.2 e he
  | getData sq =>
    show SendEntryLB i t (c.GetData sq).1
    constructor
    · rw [(GetData_frame c sq).2.2.1]
      exact h.1
    · intro e he
      by_cases hids : (GetDataSelected c).2 = []
      · rw [GetData_eq_of_empty c sq hids] at he
        exact h.2 e he
      · have hq : (c.GetData sq).1.sendQueue = (GetDataSelected c).1 := by
          rw [GetData_eq_of_nonempty c sq hids]
        rw [hq] at he
        rcases ho : findOldestMessageId c with _ | oldest
        · have hqq : (GetDataSelected c).1 = c.sendQueue := by
            unfold GetDataSelected
            rw [ho]
          rw [hqq] at he
          exact h.2 e he
        · have hsel2 := GetDataSelected_eq_of_oldest c oldest ho
          obtain ⟨news, _, _, _, _, hframe⟩ :=
            gather_spec c.config c.time oldest c.config.receiveQueueSize 0
              c.sendQueue (c.config.packetBudget * 8) []
          rw [hsel2] at he
          dsimp only at he
          rw [hframe i] at he
          by_cases hin : i ∈ news
          · rw [if_pos hin] at he
            rcases hfo : c.sendQueue.find i with _ | e0
            · rw [hfo] at he
              exact absurd he (by simp)
            · rw [hfo] at he
              dsimp only [Option.map] at he
              rw [← Option.some.inj he]
              exact h.1
          · rw [if_neg hin] at he
            exact h.2 e he
  | processData sq msgs =>
    show SendEntryLB i t (c.ProcessData sq msgs).1
    constructor
    · rw [(ProcessData_frame c sq msgs).2.2.2.1]
      exact h.1
    · intro e he
      rw [(ProcessData_frame c sq msgs).1] at he
      exact h.2 e he
  | processAck a =>
    show SendEntryLB i t (c.ProcessAck a)
    constructor
    · rw [(ProcessAck_frame c a).2.2.1]
      exact h.1
    · intro e he
      unfold ProcessAck at he
      rcases hp : c.sentPackets.find (a % 65536) with _ | sp
      · rw [hp] at he
        exact h.2 e he
      · rw [hp] at he
        dsimp only at he
        by_cases hacked : sp.acked = true
        · rw [if_pos hacked] at he
          exact h.2 e he
        · rw [if_neg hacked] at he
          dsimp only at he
          exact h.2 e (ackFold_find_some sp.messageIds c.sendQueue i e he)
  | receive =>
    show SendEntryLB i t c.ReceiveMessage.1
    constructor
    · rw [(ReceiveMessage_frame c).2.2.1]
      exact h.1
    · intro e he
      rw [(ReceiveMessage_frame c).1] at he
      exact h.2 e he

/-- Head decomposition of the monotone-clock condition. -/
theorem timesMonotoneB_cons (c : ReliableMessageChannel) (op : ChannelOp)
    (rest : List ChannelOp) (h : timesMonotoneB c (op :: rest) = true) :
    (∀ t2, op = ChannelOp.update t2 → c.time ≤ t2) ∧
    timesMonotoneB (c.applyOp op) rest = true := by
  refine ⟨?_, ?_⟩
  · intro t2 hop
    subst hop
    rw [timesMonotoneB, Bool.and_eq_true] at h
    exact of_decide_eq_true h.1
  · cases op <;>
      (rw [timesMonotoneB, Bool.and_eq_true] at h <;>
        first
          | exact h.2
          | (intro t2 hop2
             cases hop2))

/-- Head decomposition of the no-fresh-send condition. -/
theorem noFreshSendAtB_cons (i : ℕ) (c : ReliableMessageChannel)
    (op : ChannelOp) (rest : List ChannelOp)
    (h : noFreshSendAtB i c (op :: rest) = true) :
    (∀ m, op = ChannelOp.send m → c.sendMessageId ≠ i) ∧
    noFreshSendAtB i (c.applyOp op) rest = true := by
  refine ⟨?_, ?_⟩
  · intro m hop
    subst hop
    rw [noFreshSendAtB, Bool.and_eq_true] at h
    exact of_decide_eq_true h.1
  · cases op <;>
      (rw [noFreshSendAtB, Bool.and_eq_true] at h <;>
        first
          | exact h.2
          | (intro m2 hop2
             cases hop2))

/-- The resend lower bound survives a whole operation list under a
monotone clock with no fresh send of id `i`. -/
theorem SendEntryLB_execOps (i : ℕ) (t : ℚ) (ops : List ChannelOp) :
    ∀ c, SendEntryLB i t c → timesMonotoneB c ops = true →
      noFreshSendAtB i c ops = true →
      SendEntryLB i t (execOps c ops) := by
  induction ops with
  | nil => exact fun c h _ _ => h
  | cons op rest ih =>
    intro c h hm hf
    obtain ⟨hm1, hm2⟩ := timesMonotoneB_cons c op rest hm
    obtain ⟨hf1, hf2⟩ := noFreshSendAtB_cons i c op rest hf
    rw [execOps]
    exact ih _ (SendEntryLB_applyOp i t c op h hm1 hf1) hm2 hf2

/-- C7: if a `GetData` call at clock `t = c.time` packs message id `i`,
then after any further operations under a monotone host clock and
without a fresh send reusing id `i`, a `GetData` whose clock is still
below `t + resend_rate` does not pack id `i` again: the id only becomes
eligible once its stamped `timeLastSent + resend_rate` has passed — and
only while it still sits in the send queue, i.e. until it is acked. -/
theorem resend_spacing (c : ReliableMessageChannel) (s i : ℕ)
    (ops : List ChannelOp)
    (hsel : i ∈ (GetDataSelected c).2)
    (hmono : timesMonotoneB (c.GetData s).1 ops = true)
    (hfresh : noFreshSendAtB i (c.GetData s).1 ops = true)
    (htime : (execOps (c.GetData s).1 ops).time
      < c.time + c.config.resendRate) :
    i ∉ (GetDataSelected (execOps (c.GetData s).1 ops)).2 := by
  intro hsel2
  obtain ⟨e, hfe, helig⟩ :=
    GetDataSelected_eligible (execOps (c.GetData s).1 ops) i hsel2
  have hLB0 : SendEntryLB i c.time (c.GetData s).1 := by
    constructor
    · rw [(GetData_frame c s).2.2.1]
    · exact fun e2 he2 => le_of_eq (getData_sel_stamped c s i hsel e2 he2).symm
  have hLB := SendEntryLB_execOps i c.time ops (c.GetData s).1 hLB0
    hmono hfresh
  have h1 := hLB.2 e hfe
  have hcfg : (execOps (c.GetData s).1 ops).config = c.config := by
    rw [execOps_config, (GetData_frame c s).2.2.2.1]
  rw [hcfg] at helig
  linarith

/-- C7 witness: the three-message test channel packs ids 0 and 1 at
clock 0 with `resend_rate = 1`; an immediate repeat `GetData` (clock
still 0 < 1) does not pack id 0 again. -/
theorem resend_spacing_witness :
    (0 ∈ (GetDataSelected testChannel3).2) ∧
    (timesMonotoneB (testChannel3.GetData 0).1 [] = true) ∧
    (noFreshSendAtB 0 (testChannel3.GetData 0).1 [] = true) ∧
    ((execOps (testChannel3.GetData 0).1 []).time
      < testChannel3.time + testChannel3.config.resendRate) ∧
    0 ∉ (GetDataSelected (execOps (testChannel3.GetData 0).1 [])).2 := by
  have hsel : 0 ∈ (GetDataSelected testChannel3).2 := by
    simp [testChannel3, init, testConfig, SendMessage, GetDataSelected,
      findOldestMessageId, GatherMessages, SlidingWindow.find,
      SlidingWindow.insert, SlidingWindow.insertFast, SlidingWindow.modify,
      SlidingWindow.hasSlotAvailable, SlidingWindow.empty, SlidingWindow.size,
      messageOverheadBits, bits_required, bitsRequiredAux, sequence_less_than,
      List.range_succ]
  have htime : (execOps (testChannel3.GetData 0).1 []).time
      < testChannel3.time + testChannel3.config.resendRate := by
    simp [execOps, testChannel3, init, testConfig, SendMessage, GetData,
      GetDataSelected, findOldestMessageId, GatherMessages, SlidingWindow.find,
      SlidingWindow.insert, SlidingWindow.insertFast, SlidingWindow.modify,
      SlidingWindow.hasSlotAvailable, SlidingWindow.empty, SlidingWindow.size,
      messageOverheadBits, bits_required, bitsRequiredAux, sequence_less_than,
      List.range_succ]
  exact ⟨hsel, rfl, rfl, htime,
    resend_spacing testChannel3 0 0 [] hsel rfl rfl htime⟩

end ReliableMessageChannel

/-! ## C8: data block reassembly -/

/-- `writeBytes` keeps the buffer length. -/
theorem length_writeBytes (data : List ℕ) (start : ℕ) (src : List ℕ) :
    (writeBytes data start src).length = data.length := by
  unfold writeBytes
  rw [List.length_map, List.length_range]

/-- Pointwise description of `writeBytes`. -/
theorem getD_writeBytes (data : List ℕ) (start : ℕ) (src : List ℕ)
    (j : ℕ) (hj : j < data.length) :
    (writeBytes data start src).getD j 0
      = if start ≤ j ∧ j < start + src.length then src.getD (j - start) 0
        else data.getD j 0 := by
  unfold writeBytes
  rw [List.getD_eq_getElem?_getD, List.getElem?_map, List.getElem?_range hj]
  rfl

namespace DataBlockReceiver

/-- The fragment count is the ceiling of `b / f`. -/
theorem numFragsFor_eq_ceil (b f : ℕ) (hf : 0 < f) :
    numFragsFor b f = (b + f - 1) / f := by
  unfold numFragsFor
  have hdm := Nat.div_add_mod b f
  by_cases hm : b % f = 0
  · rw [if_neg (fun hc => hc hm)]
    have h1 : b + f - 1 = f * (b / f) + (f - 1) := by omega
    rw [h1, Nat.mul_add_div hf, Nat.div_eq_of_lt (show f - 1 < f by omega)]
  · rw [if_pos hm]
    have hmul : f * (b / f + 1) = f * (b / f) + f := by ring
    have hlt : b % f < f := Nat.mod_lt b hf
    have h1 : b + f - 1 = f * (b / f + 1) + (b % f - 1) := by omega
    rw [h1, Nat.mul_add_div hf,
      Nat.div_eq_of_lt (show b % f - 1 < f by omega)]

/-- More bytes never need fewer fragments. -/
theorem numFragsFor_mono (b m f : ℕ) (hf : 0 < f) (h : b ≤ m) :
    numFragsFor b f ≤ numFragsFor m f := by
  rw [numFragsFor_eq_ceil b f hf, numFragsFor_eq_ceil m f hf]
  exact Nat.div_le_div_right (by omega)

/-- A nonempty block needs at least one fragment. -/
theorem numFragsFor_pos (b f : ℕ) (hb : 0 < b) : 0 < numFragsFor b f := by
  unfold numFragsFor
  by_cases hm : b % f = 0
  · rw [if_neg (fun hc => hc hm)]
    have hf : 0 < f := by
      rcases Nat.eq_zero_or_pos f with h0 | h0
      · rw [h0] at hm
        simp at hm
        omega
      · exact h0
    exact Nat.div_pos (Nat.le_of_dvd hb (Nat.dvd_of_mod_eq_zero hm)) hf
  · rw [if_pos hm]
    exact Nat.succ_pos (b / f)

/-- Every fragment index starts strictly inside the block. -/
theorem mul_lt_of_lt_numFragsFor (b f k : ℕ) (hf : 0 < f)
    (hk : k < numFragsFor b f) : k * f < b := by
  have hdm := Nat.div_add_mod b f
  have hc := Nat.mul_comm (b / f) f
  unfold numFragsFor at hk
  by_cases hm : b % f = 0
  · rw [if_neg (fun hc2 => hc2 hm)] at hk
    have h1 : (k + 1) * f ≤ (b / f) * f := Nat.mul_le_mul_right f (by omega)
    have h3 : (k + 1) * f = k * f + f := by ring
    omega
  · rw [if_pos hm] at hk
    have h1 : k * f ≤ (b / f) * f := Nat.mul_le_mul_right f (by omega)
    omega

/-- The fragments cover the whole block. -/
theorem le_numFragsFor_mul (b f : ℕ) (hf : 0 < f) :
    b ≤ numFragsFor b f * f := by
  have hdm := Nat.div_add_mod b f
  have hc := Nat.mul_comm (b / f) f
  unfold numFragsFor
  by_cases hm : b % f = 0
  · rw [if_neg (fun hc2 => hc2 hm)]
    have h1 : (b / f + 0) * f = (b / f) * f := by ring
    omega
  · rw [if_pos hm]
    have h1 : (b / f + 1) * f = (b / f) * f + f := by ring
    have hlt : b % f < f := Nat.mod_lt b hf
    omega

/-- Each block byte belongs to a valid fragment index. -/
theorem div_lt_numFragsFor (b f j : ℕ) (hf : 0 < f) (hj : j < b) :
    j / f < numFragsFor b f := by
  rw [Nat.div_lt_iff_lt_mul hf]
  have := le_numFragsFor_mul b f hf
  omega

/-- Length of a fragment slice fully inside the block. -/
theorem fragSlice_length (block : List ℕ) (fs k n : ℕ)
    (h : k * fs + n ≤ block.length) :
    (fragSlice block fs k n).length = n := by
  unfold fragSlice
  rw [List.length_take, List.length_drop]
  omega

/-- Bytes of a fragment slice. -/
theorem fragSlice_getD (block : List ℕ) (fs k n i : ℕ) (hi : i < n) :
    (fragSlice block fs k n).getD i 0 = block.getD (k * fs + i) 0 := by
  unfold fragSlice
  rw [List.getD_eq_getElem?_getD, List.getD_eq_getElem?_getD,
    List.getElem?_take, if_pos hi, List.getElem?_drop]

/-- Evaluation of `ProcessFragment` on the very first fragment of a
fresh receiver. -/
theorem ProcessFragment_eq_first (r : DataBlockReceiver)
    (bs nf k n : ℕ) (slice : List ℕ)
    (hA : ¬ bs > r.maxBlockSize) (hB : r.error = 0) (hC : r.blockSize = 0)
    (hD : ¬ r.numFragments > r.maxFragments) (hE : r.numFragments = 0)
    (hF : ¬ k ≥ nf) (hG : ¬ k * r.fragmentSize + n > bs)
    (hH : r.receivedFragment.getD k false = false) :
    r.ProcessFragment bs nf k n slice
      = { r with
          blockSize := bs
          numFragments := nf
          acks := r.acks ++ [k]
          receivedFragment := r.receivedFragment.set k true
          numReceivedFragments := r.numReceivedFragments + 1
          data := writeBytes r.data (k * r.fragmentSize) (slice.take n) } := by
  unfold ProcessFragment
  rw [if_neg hA, if_neg (by rw [hB]; simp)]
  dsimp only
  rw [if_pos hC]
  dsimp only
  rw [if_neg (show ¬ bs ≠ bs from fun hc => hc rfl), if_neg hD,
    if_pos hE]
  dsimp only
  rw [if_neg (show ¬ nf ≠ nf from fun hc => hc rfl), if_neg hF,
    if_neg hG, if_neg (by rw [hH]; simp)]

/-- Evaluation of `ProcessFragment` on a duplicate fragment of an
already-adopted block: only an ack is appended. -/
theorem ProcessFragment_eq_dup (r : DataBlockReceiver)
    (bs nf k n : ℕ) (slice : List ℕ)
    (hA : ¬ bs > r.maxBlockSize) (hB : r.error = 0) (hC : r.blockSize = bs)
    (hC0 : ¬ r.blockSize = 0)
    (hD : ¬ r.numFragments > r.maxFragments) (hE : r.numFragments = nf)
    (hE0 : ¬ r.numFragments = 0)
    (hF : ¬ k ≥ nf) (hG : ¬ k * r.fragmentSize + n > bs)
    (hH : r.receivedFragment.getD k false = true) :
    r.ProcessFragment bs nf k n slice = { r with acks := r.acks ++ [k] } := by
  unfold ProcessFragment
  rw [if_neg hA, if_neg (by rw [hB]; simp)]
  dsimp only
  rw [if_neg hC0]
  rw [if_neg (show ¬ r.blockSize ≠ bs from fun hc => hc hC), if_neg hD,
    if_neg hE0]
  rw [if_neg (show ¬ r.numFragments ≠ nf from fun hc => hc hE),
    if_neg (show ¬ k ≥ r.numFragments by rw [hE]; exact hF),
    if_neg (show ¬ k * r.fragmentSize + n > r.blockSize by rw [hC]; exact hG),
    if_pos hH]

/-- Evaluation of `ProcessFragment` on a new fragment of an
already-adopted block. -/
theorem ProcessFragment_eq_later (r : DataBlockReceiver)
    (bs nf k n : ℕ) (slice : List ℕ)
    (hA : ¬ bs > r.maxBlockSize) (hB : r.error = 0) (hC : r.blockSize = bs)
    (hC0 : ¬ r.blockSize = 0)
    (hD : ¬ r.numFragments > r.maxFragments) (hE : r.numFragments = nf)
    (hE0 : ¬ r.numFragments = 0)
    (hF : ¬ k ≥ nf) (hG : ¬ k * r.fragmentSize + n > bs)
    (hH : r.receivedFragment.getD k false = false) :
    r.ProcessFragment bs nf k n slice
      = { r with
          acks := r.acks ++ [k]
          receivedFragment := r.receivedFragment.set k true
          numReceivedFragments := r.numReceivedFragments + 1
          data := writeBytes r.data (k * r.fragmentSize) (slice.take n) } := by
  unfold ProcessFragment
  rw [if_neg hA, if_neg (by rw [hB]; simp)]
  dsimp only
  rw [if_neg hC0]
  rw [if_neg (show ¬ r.blockSize ≠ bs from fun hc => hc hC), if_neg hD,
    if_neg hE0]
  rw [if_neg (show ¬ r.numFragments ≠ nf from fun hc => hc hE),
    if_neg (show ¬ k ≥ r.numFragments by rw [hE]; exact hF),
    if_neg (show ¬ k * r.fragmentSize + n > r.blockSize by rw [hC]; exact hG),
    if_neg (by rw [hH]; simp)]

end DataBlockReceiver

namespace DataBlockReceiver

/-- One admissible `ProcessFragment` call preserves the reassembly
invariant and appends exactly one ack. -/
theorem RecvInv_step (fs mbs bs nf : ℕ) (block : List ℕ)
    (hfs : 0 < fs) (hbs : 0 < bs) (hle : bs ≤ mbs)
    (hnf : nf = numFragsFor bs fs) (hblock : block.length = bs)
    (r : DataBlockReceiver) (p : List ℕ) (k : ℕ) (hk : k < nf)
    (h : RecvInv fs mbs bs nf block p r) :
    RecvInv fs mbs bs nf block (p ++ [k])
      (r.ProcessFragment bs nf k (fragLen bs fs k)
        (fragSlice block fs k (fragLen bs fs k))) := by
  obtain ⟨h1, h2, h3, h4, h5, h6, h7, h8, h9, h10, h11, h12⟩ := h
  have hnfmax : nf ≤ numFragsFor mbs fs := by
    rw [hnf]
    exact numFragsFor_mono bs mbs fs hfs hle
  have hkbs : k * fs < bs :=
    mul_lt_of_lt_numFragsFor bs fs k hfs (hnf ▸ hk)
  have hfrag : fragLen bs fs k = min fs (bs - k * fs) := rfl
  have hG0 : ¬ k * fs + fragLen bs fs k > bs := by
    rw [hfrag]
    omega
  have hslen : (fragSlice block fs k (fragLen bs fs k)).length
      = fragLen bs fs k :=
    fragSlice_length block fs k _ (by rw [hblock, hfrag]; omega)
  have htake : (fragSlice block fs k (fragLen bs fs k)).take
      (fragLen bs fs k) = fragSlice block fs k (fragLen bs fs k) :=
    List.take_of_length_le (le_of_eq hslen)
  have hA : ¬ bs > r.maxBlockSize := by rw [h2]; omega
  have hG : ¬ k * r.fragmentSize + fragLen bs fs k > bs := by
    rw [h1]
    exact hG0
  have hF : ¬ k ≥ nf := by omega
  have htf : (p ++ [k]).toFinset = insert k p.toFinset := by
    simp [List.toFinset_append]
    exact Finset.union_comm _ _
  by_cases hkp : k ∈ p
  · have hpe : p ≠ [] := by
      intro h0
      rw [h0] at hkp
      exact absurd hkp (by simp)
    have hH : r.receivedFragment.getD k false = true := (h9 k).2 hkp
    rw [ProcessFragment_eq_dup r bs nf k _ _ hA h4
      (by rw [h6, if_neg hpe]) (by rw [h6, if_neg hpe]; omega)
      (by rw [h7, if_neg hpe, h3]; omega) (by rw [h7, if_neg hpe])
      (by rw [h7, if_neg hpe]; omega) hF hG hH]
    refine ⟨h1, h2, h3, h4, ?_, ?_, ?_, h8, ?_, ?_, h11, ?_⟩
    · show r.acks ++ [k] = p ++ [k]
      rw [h5]
    · show r.blockSize = if p ++ [k] = [] then 0 else bs
      rw [h6, if_neg hpe, if_neg (by simp)]
    · show r.numFragments = if p ++ [k] = [] then 0 else nf
      rw [h7, if_neg hpe, if_neg (by simp)]
    · intro j
      rw [h9 j]
      constructor
      · intro hj
        exact List.mem_append.2 (Or.inl hj)
      · intro hj
        rcases List.mem_append.1 hj with hj2 | hj2
        · exact hj2
        · rw [List.mem_singleton.1 hj2]
          exact hkp
    · show r.numReceivedFragments
        = (Finset.range nf ∩ (p ++ [k]).toFinset).card
      rw [h10, htf, Finset.insert_eq_self.2 (List.mem_toFinset.2 hkp)]
    · intro j hj hjm
      apply h12 j hj
      rcases List.mem_append.1 hjm with hj2 | hj2
      · exact hj2
      · rw [List.mem_singleton.1 hj2]
        exact hkp
  · have hH : r.receivedFragment.getD k false = false := by
      cases hb : r.receivedFragment.getD k false
      · rfl
      · exact absurd ((h9 k).1 hb) hkp
    have hflags : ∀ j, (r.receivedFragment.set k true).getD j false = true
        ↔ j ∈ p ++ [k] := by
      intro j
      by_cases hjk : j = k
      · subst hjk
        constructor
        · intro _
          exact List.mem_append.2 (Or.inr (by simp))
        · intro _
          rw [List.getD_eq_getElem?_getD, List.getElem?_set_self]
          · rfl
          · rw [h8]
            omega
      · rw [List.getD_eq_getElem?_getD,
          List.getElem?_set_ne (fun hh => hjk hh.symm),
          ← List.getD_eq_getElem?_getD, h9 j]
        constructor
        · intro hj
          exact List.mem_append.2 (Or.inl hj)
        · intro hj
          rcases List.mem_append.1 hj with hj2 | hj2
          · exact hj2
          · exact absurd (List.mem_singleton.1 hj2) hjk
    have hcount : r.numReceivedFragments + 1
        = (Finset.range nf ∩ (p ++ [k]).toFinset).card := by
      rw [h10, htf, Finset.inter_insert_of_mem (Finset.mem_range.2 hk),
        Finset.card_insert_of_not_mem
          (fun hc => hkp (List.mem_toFinset.1 (Finset.mem_inter.1 hc).2))]
    have hdata : ∀ j, j < bs → j / fs ∈ p ++ [k] →
        (writeBytes r.data (k * r.fragmentSize)
          ((fragSlice block fs k (fragLen bs fs k)).take
            (fragLen bs fs k))).getD j 0 = block.getD j 0 := by
      intro j hj hjm
      rw [h1, htake, getD_writeBytes _ _ _ _ (by rw [h11]; omega), hslen]
      by_cases hin : k * fs ≤ j ∧ j < k * fs + fragLen bs fs k
      · rw [if_pos hin]
        rw [fragSlice_getD block fs k (fragLen bs fs k) (j - k * fs)
          (by omega)]
        congr 1
        omega
      · rw [if_neg hin]
        rcases List.mem_append.1 hjm with hj2 | hj2
        · exact h12 j hj hj2
        · exfalso
          apply hin
          have hdiv : j / fs = k := List.mem_singleton.1 hj2
          have hdm := Nat.div_add_mod j fs
          have hmod : j % fs < fs := Nat.mod_lt j hfs
          have hcm : fs * (j / fs) = (j / fs) * fs := Nat.mul_comm _ _
          rw [hdiv] at hdm hcm
          rw [hfrag]
          omega
    have hfll : (r.receivedFragment.set k true).length
        = numFragsFor mbs fs := by
      rw [List.length_set, h8]
    have hdl : (writeBytes r.data (k * r.fragmentSize)
        ((fragSlice block fs k (fragLen bs fs k)).take
          (fragLen bs fs k))).length = mbs := by
      rw [length_writeBytes, h11]
    by_cases hpe : p = []
    · rw [ProcessFragment_eq_first r bs nf k _ _ hA h4
        (by rw [h6, if_pos hpe]) (by rw [h7, if_pos hpe]; omega)
        (by rw [h7, if_pos hpe]) hF hG hH]
      exact ⟨h1, h2, h3, h4, by rw [h5], by rw [if_neg (by simp)],
        by rw [if_neg (by simp)], hfll, hflags, hcount, hdl, hdata⟩
    · rw [ProcessFragment_eq_later r bs nf k _ _ hA h4
        (by rw [h6, if_neg hpe]) (by rw [h6, if_neg hpe]; omega)
        (by rw [h7, if_neg hpe, h3]; omega) (by rw [h7, if_neg hpe])
        (by rw [h7, if_neg hpe]; omega) hF hG hH]
      exact ⟨h1, h2, h3, h4, by rw [h5],
        by rw [h6, if_neg hpe, if_neg (by simp)],
        by rw [h7, if_neg hpe, if_neg (by simp)],
        hfll, hflags, hcount, hdl, hdata⟩

/-- A fresh receiver satisfies the invariant with no fragment seen. -/
theorem RecvInv_create (fs mbs bs nf : ℕ) (block : List ℕ) :
    RecvInv fs mbs bs nf block [] (create fs mbs) := by
  refine ⟨rfl, rfl, rfl, rfl, rfl, by rw [if_pos rfl]; rfl,
    by rw [if_pos rfl]; rfl, ?_, ?_, ?_, ?_, ?_⟩
  · rw [show (create fs mbs).receivedFragment
      = List.replicate (numFragsFor mbs fs) false from rfl,
      List.length_replicate]
  · intro k
    rw [show (create fs mbs).receivedFragment
      = List.replicate (numFragsFor mbs fs) false from rfl,
      List.getD_eq_getElem?_getD, List.getElem?_replicate]
    constructor
    · intro hb
      exfalso
      by_cases hlt : k < numFragsFor mbs fs
      · rw [if_pos hlt] at hb
        exact absurd hb (by simp)
      · rw [if_neg hlt] at hb
        exact absurd hb (by simp)
    · intro hb
      exact absurd hb (by simp)
  · simp only [List.toFinset_nil, Finset.inter_empty, Finset.card_empty]
    rfl
  · rw [show (create fs mbs).data = List.replicate mbs 0 from rfl,
      List.length_replicate]
  · intro j hj hjm
    exact absurd hjm (by simp)

/-- Running a whole schedule of consistent in-range fragments from any
invariant state extends the invariant by the schedule. -/
theorem processSchedule_inv (fs mbs bs nf : ℕ) (block : List ℕ)
    (hfs : 0 < fs) (hbs : 0 < bs) (hle : bs ≤ mbs)
    (hnf : nf = numFragsFor bs fs) (hblock : block.length = bs) :
    ∀ (sched : List ℕ) (r : DataBlockReceiver) (p : List ℕ),
    (∀ k ∈ sched, k < nf) → RecvInv fs mbs bs nf block p r →
    RecvInv fs mbs bs nf block (p ++ sched)
      (processSchedule r bs nf fs block sched) := by
  intro sched
  induction sched with
  | nil =>
    intro r p _ h
    rw [List.append_nil]
    exact h
  | cons k rest ih =>
    intro r p hmem h
    have h2 := RecvInv_step fs mbs bs nf block hfs hbs hle hnf hblock
      r p k (hmem k (by simp)) h
    have h3 := ih _ (p ++ [k])
      (fun k2 hk2 => hmem k2 (by simp [hk2])) h2
    rw [List.append_assoc] at h3
    exact h3

end DataBlockReceiver

namespace DataBlockReceiver

/-- C8: feeding a fresh receiver the consistent fragments of a block in
any order with duplicates, covering every fragment id at least once,
makes `GetBlock()` return exactly the original block bytes, and one
`SendAck` is emitted per `ProcessFragment` call — duplicates included. -/
theorem fragment_reassembly (fs mbs bs : ℕ) (block sched : List ℕ)
    (hfs : 0 < fs) (hbs : 0 < bs) (hle : bs ≤ mbs)
    (hblock : block.length = bs)
    (hmem : ∀ k ∈ sched, k < numFragsFor bs fs)
    (hcover : ∀ k, k < numFragsFor bs fs → k ∈ sched) :
    (processSchedule (create fs mbs) bs (numFragsFor bs fs) fs block
        sched).acks = sched ∧
    GetBlock (processSchedule (create fs mbs) bs (numFragsFor bs fs) fs
        block sched) = some block := by
  have hinv := processSchedule_inv fs mbs bs (numFragsFor bs fs) block
    hfs hbs hle rfl hblock sched (create fs mbs) [] hmem
    (RecvInv_create fs mbs bs (numFragsFor bs fs) block)
  rw [List.nil_append] at hinv
  obtain ⟨h1, h2, h3, h4, h5, h6, h7, h8, h9, h10, h11, h12⟩ := hinv
  have hsne : sched ≠ [] := by
    intro h0
    have hm := hcover 0 (numFragsFor_pos bs fs hbs)
    rw [h0] at hm
    exact absurd hm (by simp)
  rw [if_neg hsne] at h6 h7
  refine ⟨h5, ?_⟩
  have hsub : Finset.range (numFragsFor bs fs) ⊆ sched.toFinset := by
    intro x hx
    exact List.mem_toFinset.2 (hcover x (Finset.mem_range.1 hx))
  have hcnt : (processSchedule (create fs mbs) bs (numFragsFor bs fs) fs
      block sched).numReceivedFragments = numFragsFor bs fs := by
    rw [h10, Finset.inter_eq_left.2 hsub, Finset.card_range]
  unfold GetBlock
  rw [if_pos (show ReceiveCompleted (processSchedule (create fs mbs) bs
      (numFragsFor bs fs) fs block sched) = true ∧
      (processSchedule (create fs mbs) bs (numFragsFor bs fs) fs block
        sched).blockSize > 0 from ⟨by
          unfold ReceiveCompleted
          rw [hcnt, h7]
          simp, by rw [h6]; omega⟩)]
  congr 1
  rw [h6]
  apply List.ext_getElem
  · rw [List.length_take, h11, hblock]
    omega
  · intro i hi1 hi2
    have hib : i < bs := hblock ▸ hi2
    have hid : i < (processSchedule (create fs mbs) bs (numFragsFor bs fs)
        fs block sched).data.length := by
      rw [h11]
      omega
    have hdd := h12 i hib (hcover (i / fs)
      (div_lt_numFragsFor bs fs i hfs hib))
    rw [List.getD_eq_getElem _ 0 hid, List.getD_eq_getElem _ 0 hi2] at hdd
    rw [List.getElem_take, hdd]

/-- C8 witness: block `[10, 20, 30]` (size 3, fragment size 2, two
fragments, allocation 4) delivered in reverse order with a duplicate —
the receiver acks all three calls and `GetBlock` returns the block. -/
theorem fragment_reassembly_witness :
    (processSchedule (create 2 4) 3 (numFragsFor 3 2) 2 [10, 20, 30]
        [1, 0, 1]).acks = [1, 0, 1] ∧
    GetBlock (processSchedule (create 2 4) 3 (numFragsFor 3 2) 2
        [10, 20, 30] [1, 0, 1]) = some [10, 20, 30] :=
  fragment_reassembly 2 4 3 [10, 20, 30] [1, 0, 1] (by decide) (by decide)
    (by decide) (by decide) (by decide) (by decide)

end DataBlockReceiver

end protocol
